import Mathlib

/-!
# Scripted GATT test harness (`unit/test-gatt.c`)

A shallow embedding of the harness engine of `unit/test-gatt.c`: the PDU script
(`struct test_pdu`, `define_test`), the per-run `struct context`, the callbacks
`context_quit`, `send_pdu`, `context_process`, `test_handler`, `primary_cb`,
`destroy_context`, and the part of the GLib main loop the callbacks talk to
(source registration, removal, quit).

Conventions of the embedding:

* bytes are natural numbers, `unsigned int pdu_offset` is a natural number
  that is incremented modulo `2^32`;
* `g_assert*` failures are the `Except.error` results of the callbacks;
* the values the operating system hands to a callback (`read`'s result,
  `write`'s return value, the `GIOCondition`) are arguments of the callback;
* every call that leaves the harness (`read`, `write`, `g_idle_add`,
  `g_source_remove`, `g_main_loop_quit`) and every evaluation of
  `pdu_list[pdu_offset]` is appended to the ghost field `context.trace`;
* the collaborators (`bt_att`, `bt_gatt_client`) and the diagnostic hexdump
  are outside the embedding: what the collaborator writes to its end of the
  socket pair arrives as the `read` result of a watch event.
-/

namespace TestGatt

/-! ## Definitions -/

/-- The `struct test_pdu` of the source: `valid`, `data`, `size`. -/
structure test_pdu where
  valid : Bool
  data : List Nat
  size : Nat
deriving DecidableEq

/-- The `raw_pdu(args...)` initialiser: a valid vector whose `size` is
`sizeof(data(args))`. -/
def raw_pdu (args : List Nat) : test_pdu :=
  { valid := true, data := args, size := args.length }

/-- The empty initialiser `{ }` that `define_test` appends to the script:
`valid = false`, `data = NULL`, `size = 0`. -/
def sentinel : test_pdu :=
  { valid := false, data := [], size := 0 }

/-- The `struct test_data` of the source, reduced to the script (`test_name`,
`context_type` and `uuid` only select the collaborator). -/
structure test_data where
  pdu_list : List test_pdu
deriving DecidableEq

/-- The `define_test` registration: `pdus[] = { args, { } }` copied into
`data.pdu_list`. -/
def define_test (args : List (List Nat)) : test_data :=
  { pdu_list := args.map raw_pdu ++ [sentinel] }

/-- What the harness did to the outside world, most recent last. -/
inductive action where
  /-- The address `&pdu_list[i]` was formed. -/
  | fetch (i : Nat)
  /-- A call `read(fd, buf, sizeof(buf))` on the descriptor `fd`. -/
  | read (fd : Int)
  /-- The message passed both the length and the `memcmp` assertion. -/
  | matched (m : List Nat)
  /-- A call `write(fd, pdu->data, pdu->size)` on the descriptor `fd` with
  these bytes. -/
  | write (fd : Int) (bytes : List Nat)
  /-- A call `g_idle_add(send_pdu, context)` that returned `id`. -/
  | idle_add (id : Nat)
  /-- A call `g_source_remove(id)`; `found` tells whether a source with that
  id was attached at that moment. -/
  | source_remove (id : Nat) (found : Bool)
  /-- A call `g_main_loop_quit`. -/
  | loop_quit
deriving DecidableEq

/-- The GLib main loop as the harness sees it: whether `g_main_loop_quit` was
called, the ids of the attached channel watches (`test_handler`) and idle
sources (`send_pdu`), and the next source id GLib hands out. -/
structure GMainLoop where
  quit : Bool
  watches : List Nat
  idles : List Nat
  next_id : Nat
deriving DecidableEq

/-- The `struct context` of the source (`client` and `att` belong to the
collaborator and are left out), with the ghost `trace`. -/
structure context where
  main_loop : GMainLoop
  source : Nat
  process : Nat
  fd : Int
  pdu_offset : Nat
  data : test_data
  trace : List action
deriving DecidableEq

/-- The ways a callback can abort the test. The first four are the
`g_assert`/`g_assert_cmpint` of the source; `out_of_range` is a dereference of
`pdu` when it points outside `pdu_list`. -/
inductive failure where
  /-- The assertion `g_assert(len > 0)` of `test_handler`. -/
  | assert_read_len
  /-- The assertion `g_assert_cmpint(len, ==, pdu->size)` of `test_handler`. -/
  | assert_len_size
  /-- The assertion `g_assert(memcmp(buf, pdu->data, pdu->size) == 0)`. -/
  | assert_memcmp
  /-- The assertion `g_assert_cmpint(len, ==, pdu->size)` of `send_pdu`. -/
  | assert_write_len
  /-- The assertion `g_assert(success)` of `primary_cb`. -/
  | assert_success
  /-- A dereference of `&pdu_list[i]` with `i` outside the array. -/
  | out_of_range
deriving DecidableEq

/-- The value of `read(fd, buf, sizeof(buf))`: a failure (return value `-1`)
or the bytes placed in `buf` (return value their number, `0` at end of
file). -/
inductive read_ret where
  | failed
  | got (m : List Nat)
deriving DecidableEq

/-- The `ssize_t` returned by `read`. -/
def read_ret.len : read_ret → Int
  | .failed => -1
  | .got m => (m.length : Int)

/-- The bytes `read` stored in `buf`. -/
def read_ret.buf : read_ret → List Nat
  | .failed => []
  | .got m => m

/-- GLib: `G_IO_IN`. -/
def G_IO_IN : Nat := 1

/-- GLib: `G_IO_ERR`. -/
def G_IO_ERR : Nat := 8

/-- GLib: `G_IO_HUP`. -/
def G_IO_HUP : Nat := 16

/-- GLib: `G_IO_NVAL`. -/
def G_IO_NVAL : Nat := 32

/-- The test `cond & (G_IO_NVAL | G_IO_ERR | G_IO_HUP)` of `test_handler`. -/
def cond_err (cond : Nat) : Bool :=
  cond &&& (G_IO_NVAL ||| G_IO_ERR ||| G_IO_HUP) != 0

/-- The increment `pdu_offset++` of an `unsigned int`. -/
def incr (n : Nat) : Nat := (n + 1) % 2 ^ 32

/-- GLib: a fresh loop; `n` source ids have been handed out before. -/
def g_main_loop_new (n : Nat) : GMainLoop :=
  { quit := false, watches := [], idles := [], next_id := n + 1 }

/-- Whether a source with this id is attached. -/
def attached (l : GMainLoop) (id : Nat) : Bool :=
  decide (id ∈ l.watches) || decide (id ∈ l.idles)

/-- GLib: `g_source_remove(id)` detaches the source with that id, if any. -/
def g_source_remove (l : GMainLoop) (id : Nat) : GMainLoop :=
  { l with watches := l.watches.filter (fun x => decide (x ≠ id)),
           idles := l.idles.filter (fun x => decide (x ≠ id)) }

/-- GLib: `g_idle_add` attaches an idle source under a fresh id. -/
def g_idle_add (l : GMainLoop) : GMainLoop × Nat :=
  ({ l with idles := l.idles ++ [l.next_id], next_id := l.next_id + 1 }, l.next_id)

/-- GLib: `g_io_add_watch` attaches a channel watch under a fresh id. -/
def g_io_add_watch (l : GMainLoop) : GMainLoop × Nat :=
  ({ l with watches := l.watches ++ [l.next_id], next_id := l.next_id + 1 }, l.next_id)

/-- GLib: `g_main_loop_quit`. -/
def g_main_loop_quit (l : GMainLoop) : GMainLoop :=
  { l with quit := true }

/-- The function `context_quit`: remove the idle source named by `process`
when `process > 0`, stop the loop, return `FALSE`. -/
def context_quit (c : context) : context × Bool :=
  let c1 :=
    if c.process > 0 then
      { c with main_loop := g_source_remove c.main_loop c.process,
               trace := c.trace ++ [action.source_remove c.process
                                      (attached c.main_loop c.process)] }
    else c
  ({ c1 with main_loop := g_main_loop_quit c1.main_loop,
             trace := c1.trace ++ [action.loop_quit] }, false)

/-- The function `send_pdu`; `wret` is the value `write` returns. -/
def send_pdu (c : context) (wret : Int) : Except failure (context × Bool) :=
  let pdu := c.data.pdu_list[c.pdu_offset]?
  let c1 := { c with pdu_offset := incr c.pdu_offset,
                     trace := c.trace ++ [action.fetch c.pdu_offset] }
  match pdu with
  | none => .error .out_of_range
  | some pdu =>
    let c2 := { c1 with trace := c1.trace ++ [action.write c.fd (pdu.data.take pdu.size)] }
    if wret ≠ (pdu.size : Int) then .error .assert_write_len
    else .ok ({ c2 with process := 0 }, false)

/-- The function `context_process`: stop at the sentinel, otherwise schedule
`send_pdu`. -/
def context_process (c : context) : Except failure context :=
  let c1 := { c with trace := c.trace ++ [action.fetch c.pdu_offset] }
  match c.data.pdu_list[c.pdu_offset]? with
  | none => .error .out_of_range
  | some pdu =>
    if !pdu.valid then .ok (context_quit c1).1
    else
      let r := g_idle_add c1.main_loop
      .ok { c1 with main_loop := r.1, process := r.2,
                    trace := c1.trace ++ [action.idle_add r.2] }

/-- The function `test_handler`; `cond` is the `GIOCondition` and `r` the
value of `read(fd, buf, sizeof(buf))`, consulted only on the readable path. -/
def test_handler (c : context) (cond : Nat) (r : read_ret) :
    Except failure (context × Bool) :=
  let pdu := c.data.pdu_list[c.pdu_offset]?
  let c1 := { c with pdu_offset := incr c.pdu_offset,
                     trace := c.trace ++ [action.fetch c.pdu_offset] }
  if cond_err cond then
    .ok ({ c1 with source := 0 }, false)
  else
    let c2 := { c1 with trace := c1.trace ++ [action.read c.fd] }
    if ¬ (r.len > 0) then .error .assert_read_len
    else
      match pdu with
      | none => .error .out_of_range
      | some pdu =>
        if r.len ≠ (pdu.size : Int) then .error .assert_len_size
        else if r.buf.take pdu.size ≠ pdu.data.take pdu.size then .error .assert_memcmp
        else
          match context_process { c2 with trace := c2.trace ++ [action.matched r.buf] } with
          | .error f => .error f
          | .ok c3 => .ok (c3, true)

/-- The function `create_context`, reduced to the harness side: a fresh loop,
the watch on the retained endpoint `sv[1]`, and the zeroed fields of `g_new0`.
The `mtu` argument of the source only reaches the collaborator; `sv1` is the
descriptor `socketpair` returned for the retained endpoint, and `n` counts the
source ids GLib handed out before, so the asserted `source > 0` holds. -/
def create_context (n : Nat) (sv1 : Int) (data : test_data) : context :=
  let r := g_io_add_watch (g_main_loop_new n)
  { main_loop := r.1, source := r.2, process := 0, fd := sv1, pdu_offset := 0,
    data := data, trace := [] }

/-- The function `primary_cb`: assert `success`, then `context_quit`. -/
def primary_cb (c : context) (success : Bool) : Except failure context :=
  if !success then .error .assert_success
  else .ok (context_quit c).1

/-- The function `destroy_context`, reduced to its loop registration: remove
the watch when `source > 0`. -/
def destroy_context (c : context) : context :=
  if c.source > 0 then
    { c with main_loop := g_source_remove c.main_loop c.source,
             trace := c.trace ++ [action.source_remove c.source
                                    (attached c.main_loop c.source)] }
  else c

/-- What `g_main_loop_run` can dispatch to the harness. -/
inductive event where
  /-- The channel watch `id` fires with condition `cond`; a `read` on the
  endpoint would return `r`. -/
  | watch (id : Nat) (cond : Nat) (r : read_ret)
  /-- The idle source `id` fires; the `write` returns `wret`. -/
  | idle (id : Nat) (wret : Int)
  /-- The collaborator completes the discovery and calls `primary_cb`. -/
  | completion (success : Bool)
deriving DecidableEq

/-- GLib: a source whose callback returned `FALSE` is destroyed. -/
def after_callback (id : Nat) (p : context × Bool) : context :=
  if p.2 then p.1
  else { p.1 with main_loop := g_source_remove p.1.main_loop id }

/-- One dispatch of the loop. -/
def dispatch (c : context) : event → Except failure context
  | .watch id cond r =>
    match test_handler c cond r with
    | .error f => .error f
    | .ok p => .ok (after_callback id p)
  | .idle id wret =>
    match send_pdu c wret with
    | .error f => .error f
    | .ok p => .ok (after_callback id p)
  | .completion success => primary_cb c success

/-- An event the loop can deliver: the loop has not been stopped (a run ends
with `g_main_loop_quit`; what GLib may still dispatch within the iteration
that stopped the loop is not part of a run) and the source that fires is
attached. The completion callback can come at any moment of the run. -/
def enabled (c : context) : event → Bool
  | .watch id _ _ => !c.main_loop.quit && decide (id ∈ c.main_loop.watches)
  | .idle id _ => !c.main_loop.quit && decide (id ∈ c.main_loop.idles)
  | .completion _ => !c.main_loop.quit

/-- One exchange at a time: a readable notification is handled only when no
deferred send is attached, that is, each scheduled deferred send fires (or is
removed) before the next inbound message is handled. Error, hangup and
invalid notifications are not restricted. -/
def one_at_a_time (c : context) (e : event) : Bool :=
  enabled c e &&
    match e with
    | .watch _ cond _ => cond_err cond || c.main_loop.idles.isEmpty
    | _ => true

/-- One exchange at a time and no error, hangup or invalid notification. -/
def failure_free (c : context) (e : event) : Bool :=
  enabled c e &&
    match e with
    | .watch _ cond _ => !cond_err cond && c.main_loop.idles.isEmpty
    | _ => true

/-- A run of the loop under the discipline `g`: `some` final context when
every event was allowed by `g` and no callback aborted. -/
def run (g : context → event → Bool) : context → List event → Option context
  | c, [] => some c
  | c, e :: es =>
    if g c e then
      match dispatch c e with
      | .ok c1 => run g c1 es
      | .error _ => none
    else none

/-- The function `execute_context`: `g_main_loop_run` dispatches the events
`es` under the discipline `g` and returns once the loop has been stopped, then
`destroy_context` runs. The result is `none` when a callback aborted or the
loop was never stopped. -/
def execute_context (g : context → event → Bool) (c : context) (es : List event) :
    Option context :=
  match run g c es with
  | some c1 => if c1.main_loop.quit then some (destroy_context c1) else none
  | none => none

/-- The bytes of a `write`. -/
def action.write_bytes : action → Option (List Nat)
  | .write _ b => some b
  | _ => none

/-- The bytes of a matched message. -/
def action.matched_bytes : action → Option (List Nat)
  | .matched m => some m
  | _ => none

/-- Whether the action is a match or a write. -/
def action.is_exchange : action → Bool
  | .matched _ => true
  | .write _ _ => true
  | _ => false

/-- The messages written, oldest first. -/
def written (t : List action) : List (List Nat) := t.filterMap action.write_bytes

/-- The messages matched, oldest first. -/
def matched_msgs (t : List action) : List (List Nat) := t.filterMap action.matched_bytes

/-- The matches and writes of a trace, in order. -/
def exchanges (t : List action) : List action := t.filter action.is_exchange

/-- The script read as a one-exchange-at-a-time dialogue: the vector at an
even position `k` is expected from the collaborator, the vector at an odd
position follows a matched vector and is sent to it. -/
def script_action (fd : Int) (k : Nat) (v : List Nat) : action :=
  if k % 2 = 0 then action.matched v else action.write fd v

/-- The dialogue of the vectors `l` that sit at positions `k`, `k + 1`, ... -/
def script_actions (fd : Int) : Nat → List (List Nat) → List action
  | _, [] => []
  | k, v :: l => script_action fd k v :: script_actions fd (k + 1) l

/-- The vectors of `l` at even positions, `l` starting at position `k`. -/
def pick : Nat → List (List Nat) → List (List Nat)
  | _, [] => []
  | k, v :: l => if k % 2 = 0 then v :: pick (k + 1) l else pick (k + 1) l

/-- The expect vectors of a script: positions 0, 2, 4, ... -/
def expect_vectors (vs : List (List Nat)) : List (List Nat) := pick 0 vs

/-- The send vectors of a script: positions 1, 3, 5, ..., each following an
expect vector. -/
def send_vectors (vs : List (List Nat)) : List (List Nat) := pick 1 vs

/-- The context `test_handler` hands to `context_process` after a match. -/
def after_match (c : context) (r : read_ret) : context :=
  { c with pdu_offset := incr c.pdu_offset,
           trace := c.trace ++ [action.fetch c.pdu_offset, action.read c.fd, action.matched r.buf] }

/-- The invariant of one-exchange-at-a-time runs on the script `vs`. -/
structure harness_inv (vs : List (List Nat)) (c : context) : Prop where
  data : c.data = define_test vs
  next_pos : 0 < c.main_loop.next_id
  watch : (c.source = 0 ∧ c.main_loop.watches = []) ∨
    (0 < c.source ∧ c.main_loop.watches = [c.source])
  source_lt : c.source < c.main_loop.next_id
  distinct : c.process ∉ c.main_loop.watches
  idles : (c.main_loop.idles = [] ∧ (c.main_loop.quit = false → c.process = 0)) ∨
    (c.main_loop.quit = false ∧ 0 < c.process ∧ c.main_loop.idles = [c.process])
  cursor : c.pdu_offset + (if c.main_loop.idles = [] then 0 else 1) ≤
    vs.length + (if c.main_loop.watches = [] then 1 else 0)
  fetches : ∀ i, action.fetch i ∈ c.trace → i ≤ vs.length
  removes : ∀ id, action.source_remove id false ∉ c.trace

/-- The invariant of failure-free one-exchange-at-a-time runs. -/
structure exchange_inv (vs : List (List Nat)) (c : context) : Prop where
  base : harness_inv vs c
  alive : c.main_loop.watches ≠ []
  dialogue : exchanges c.trace = script_actions c.fd 0 (vs.take c.pdu_offset)
  parity : c.main_loop.quit = false → (c.main_loop.idles = [] ↔ c.pdu_offset % 2 = 0)

/-- The script of `/TP/GAC/CL/BV-01-C` registered in `main`. -/
def gac_cl_bv_01_c : List (List Nat) :=
  [[0x02, 0x00, 0x02]]

/-- The script of `/TP/GAD/CL/BV-01-C` registered in `main`. -/
def gad_cl_bv_01_c : List (List Nat) :=
  [[0x02, 0x00, 0x02],
   [0x03, 0x00, 0x02],
   [0x10, 0x01, 0x00, 0xff, 0xff, 0x00, 0x28],
   [0x11, 0x06, 0x10, 0x00, 0x13, 0x00, 0x00, 0x18, 0x20, 0x00, 0x29, 0x00, 0xb0, 0x68,
    0x30, 0x00, 0x32, 0x00, 0x19, 0x18],
   [0x10, 0x33, 0x00, 0xff, 0xff, 0x00, 0x28],
   [0x11, 0x14, 0x90, 0x00, 0x96, 0x00, 0xef, 0xcd, 0xab, 0x89, 0x67, 0x45, 0x23, 0x01,
    0x00, 0x00, 0x00, 0x00, 0x85, 0x60, 0x00, 0x00],
   [0x10, 0x97, 0x00, 0xff, 0xff, 0x00, 0x28],
   [0x01, 0x10, 0x97, 0x00, 0x0a]]

/-- The script of `/TP/GAD/CL/BV-02-C-1` registered in `main`. -/
def gad_cl_bv_02_c_1 : List (List Nat) :=
  [[0x02, 0x00, 0x02],
   [0x03, 0x00, 0x02],
   [0x06, 0x01, 0x00, 0xff, 0xff, 0x00, 0x28, 0x00, 0x18],
   [0x07, 0x01, 0x00, 0x07, 0x00],
   [0x06, 0x08, 0x00, 0xff, 0xff, 0x00, 0x28, 0x00, 0x18],
   [0x01, 0x06, 0x08, 0x00, 0x0a]]

/-- The events of the intended run of `/TP/GAD/CL/BV-01-C`. -/
def gad_cl_bv_01_c_events : List event :=
  [event.watch 1 G_IO_IN (read_ret.got [0x02, 0x00, 0x02]),
   event.idle 2 3,
   event.watch 1 G_IO_IN (read_ret.got [0x10, 0x01, 0x00, 0xff, 0xff, 0x00, 0x28]),
   event.idle 3 20,
   event.watch 1 G_IO_IN (read_ret.got [0x10, 0x33, 0x00, 0xff, 0xff, 0x00, 0x28]),
   event.idle 4 22,
   event.watch 1 G_IO_IN (read_ret.got [0x10, 0x97, 0x00, 0xff, 0xff, 0x00, 0x28]),
   event.idle 5 5,
   event.completion true]

/-- The events of the intended run of `/TP/GAD/CL/BV-02-C-1`: each request of
the collaborator is matched, each scripted response is sent by the deferred
send before the next request arrives, and the discovery then completes. -/
def gad_cl_bv_02_c_1_events : List event :=
  [event.watch 1 G_IO_IN (read_ret.got [0x02, 0x00, 0x02]),
   event.idle 2 3,
   event.watch 1 G_IO_IN (read_ret.got [0x06, 0x01, 0x00, 0xff, 0xff, 0x00, 0x28, 0x00, 0x18]),
   event.idle 3 5,
   event.watch 1 G_IO_IN (read_ret.got [0x06, 0x08, 0x00, 0xff, 0xff, 0x00, 0x28, 0x00, 0x18]),
   event.idle 4 5,
   event.completion true]

/-! ## Theorems -/

theorem define_test_length (vs : List (List Nat)) :
    (define_test vs).pdu_list.length = vs.length + 1 := by
  simp [define_test]

theorem define_test_lt (vs : List (List Nat)) (i : Nat) (h : i < vs.length) :
    (define_test vs).pdu_list[i]? = some (raw_pdu vs[i]) := by
  simp [define_test, List.getElem?_append_left, h]

theorem define_test_last (vs : List (List Nat)) :
    (define_test vs).pdu_list[vs.length]? = some sentinel := by
  simp [define_test, List.getElem?_append_right]

theorem define_test_gt (vs : List (List Nat)) (i : Nat) (h : vs.length < i) :
    (define_test vs).pdu_list[i]? = none := by
  simp [define_test]; omega

theorem define_test_some (vs : List (List Nat)) (i : Nat) (p : test_pdu)
    (h : (define_test vs).pdu_list[i]? = some p) :
    i ≤ vs.length ∧ p.data.length = p.size ∧ (p.valid = true ↔ i < vs.length) ∧
      (p.valid = false → p = sentinel) := by
  rcases Nat.lt_trichotomy i vs.length with hlt | heq | hgt
  · rw [define_test_lt vs i hlt] at h
    cases h
    simp [raw_pdu, hlt]; omega
  · subst heq
    rw [define_test_last] at h
    cases h
    simp [sentinel]
  · rw [define_test_gt vs i hgt] at h
    cases h

theorem incr_eq (n : Nat) (h : n + 1 < 2 ^ 32) : incr n = n + 1 := by
  unfold incr
  exact Nat.mod_eq_of_lt h

theorem take_eq_of_length {α : Type} (a b : List α) (n : Nat) (ha : a.length = n)
    (hb : b.length = n) : a.take n = b.take n ↔ a = b := by
  rw [List.take_of_length_le (le_of_eq ha), List.take_of_length_le (le_of_eq hb)]

theorem incr_le (n : Nat) : incr n ≤ n + 1 := Nat.mod_le _ _

theorem read_ret_len_buf (r : read_ret) (h : 0 < r.len) : (r.buf.length : Int) = r.len := by
  cases r with
  | failed => simp [read_ret.len] at h
  | got m => simp [read_ret.len, read_ret.buf]

theorem test_handler_err (c : context) (cond : Nat) (r : read_ret) (hc : cond_err cond = true) :
    test_handler c cond r =
      .ok ({ c with pdu_offset := incr c.pdu_offset,
                    trace := c.trace ++ [action.fetch c.pdu_offset],
                    source := 0 }, false) := by
  simp [test_handler, hc]

theorem test_handler_read_fail (c : context) (cond : Nat) (r : read_ret)
    (hc : cond_err cond = false) (h0 : r.len ≤ 0) :
    test_handler c cond r = .error .assert_read_len := by
  have : ¬ (0 < r.len) := by omega
  simp [test_handler, hc, this]

theorem test_handler_len_fail (c : context) (cond : Nat) (r : read_ret) (pdu : test_pdu)
    (hc : cond_err cond = false) (hp : c.data.pdu_list[c.pdu_offset]? = some pdu)
    (h0 : 0 < r.len) (h1 : r.len ≠ (pdu.size : Int)) :
    test_handler c cond r = .error .assert_len_size := by
  simp only [test_handler, hc, hp]
  simp [h0, h1]

theorem test_handler_memcmp_fail (c : context) (cond : Nat) (r : read_ret) (pdu : test_pdu)
    (hc : cond_err cond = false) (hp : c.data.pdu_list[c.pdu_offset]? = some pdu)
    (h0 : 0 < r.len) (h1 : r.len = (pdu.size : Int))
    (h2 : r.buf.take pdu.size ≠ pdu.data.take pdu.size) :
    test_handler c cond r = .error .assert_memcmp := by
  have hs : ¬ pdu.size = 0 := by omega
  simp only [test_handler, hc, hp]
  simp [h1, h2, hs]

theorem test_handler_pass (c : context) (cond : Nat) (r : read_ret) (pdu : test_pdu)
    (hc : cond_err cond = false) (hp : c.data.pdu_list[c.pdu_offset]? = some pdu)
    (h0 : 0 < r.len) (h1 : r.len = (pdu.size : Int))
    (h2 : r.buf.take pdu.size = pdu.data.take pdu.size) :
    test_handler c cond r =
      match context_process (after_match c r) with
      | .error f => .error f
      | .ok c3 => .ok (c3, true) := by
  have hs : ¬ pdu.size = 0 := by omega
  simp only [test_handler, hc, hp, after_match]
  simp [h1, h2, hs]

/-- Inversion of a normal return of `test_handler` on the readable path. -/
theorem test_handler_ok_inv (c c1 : context) (cond : Nat) (r : read_ret) (keep : Bool)
    (hc : cond_err cond = false) (h : test_handler c cond r = .ok (c1, keep)) :
    ∃ pdu, c.data.pdu_list[c.pdu_offset]? = some pdu ∧ 0 < r.len ∧ r.len = (pdu.size : Int) ∧
      r.buf.take pdu.size = pdu.data.take pdu.size ∧ keep = true ∧
      context_process (after_match c r) = .ok c1 := by
  by_cases h0 : 0 < r.len
  · cases hp : c.data.pdu_list[c.pdu_offset]? with
    | none =>
      simp [test_handler, hc, hp, h0] at h
    | some pdu =>
      by_cases h1 : r.len = (pdu.size : Int)
      · by_cases h2 : r.buf.take pdu.size = pdu.data.take pdu.size
        · rw [test_handler_pass c cond r pdu hc hp h0 h1 h2] at h
          cases hcp : context_process (after_match c r) with
          | error f => rw [hcp] at h; cases h
          | ok c3 =>
            rw [hcp] at h
            cases h
            exact ⟨pdu, rfl, h0, h1, h2, rfl, rfl⟩
        · rw [test_handler_memcmp_fail c cond r pdu hc hp h0 h1 h2] at h
          cases h
      · rw [test_handler_len_fail c cond r pdu hc hp h0 h1] at h
        cases h
  · rw [test_handler_read_fail c cond r hc (by omega)] at h
    cases h

theorem context_process_some (c : context) (pdu : test_pdu)
    (hp : c.data.pdu_list[c.pdu_offset]? = some pdu) :
    context_process c =
      if !pdu.valid then
        .ok (context_quit { c with trace := c.trace ++ [action.fetch c.pdu_offset] }).1
      else
        .ok { c with main_loop := (g_idle_add c.main_loop).1,
                     process := (g_idle_add c.main_loop).2,
                     trace := c.trace ++ [action.fetch c.pdu_offset]
                                ++ [action.idle_add (g_idle_add c.main_loop).2] } := by
  simp [context_process, hp]

theorem context_process_ok (vs : List (List Nat)) (c : context) (hd : c.data = define_test vs)
    (hi : c.pdu_offset ≤ vs.length) : ∃ c1, context_process c = .ok c1 := by
  have : c.pdu_offset < c.data.pdu_list.length := by
    rw [hd, define_test_length]; omega
  obtain ⟨pdu, hp⟩ : ∃ pdu, c.data.pdu_list[c.pdu_offset]? = some pdu :=
    ⟨_, List.getElem?_eq_getElem this⟩
  rw [context_process_some c pdu hp]
  split <;> exact ⟨_, rfl⟩

/-- C1. On a readable notification at a cursor that indexes a vector of the
script, `test_handler` returns normally exactly when the read produced at
least one byte, as many bytes as the vector has, and the very bytes of the
vector; a failed or empty read trips `g_assert(len > 0)`, another length trips
`g_assert_cmpint(len, ==, pdu->size)`, other bytes trip the `memcmp`
assertion. -/
theorem test_handler_match_iff (vs : List (List Nat)) (c : context) (cond : Nat) (r : read_ret)
    (hd : c.data = define_test vs) (hi : c.pdu_offset < vs.length)
    (hc : cond_err cond = false) :
    ((∃ p, test_handler c cond r = .ok p) ↔
        (0 < r.len ∧ r.len = ((vs[c.pdu_offset]).length : Int) ∧ r.buf = vs[c.pdu_offset])) ∧
    (r.len ≤ 0 → test_handler c cond r = .error .assert_read_len) ∧
    (0 < r.len → r.len ≠ ((vs[c.pdu_offset]).length : Int) →
        test_handler c cond r = .error .assert_len_size) ∧
    (0 < r.len → r.len = ((vs[c.pdu_offset]).length : Int) → r.buf ≠ vs[c.pdu_offset] →
        test_handler c cond r = .error .assert_memcmp) := by
  have hp : c.data.pdu_list[c.pdu_offset]? = some (raw_pdu vs[c.pdu_offset]) := by
    rw [hd]; exact define_test_lt vs _ hi
  have htake : 0 < r.len → r.len = ((vs[c.pdu_offset]).length : Int) →
      (r.buf.take (raw_pdu vs[c.pdu_offset]).size
          = (raw_pdu vs[c.pdu_offset]).data.take (raw_pdu vs[c.pdu_offset]).size
        ↔ r.buf = vs[c.pdu_offset]) := by
    intro h0 h1
    have h2 := read_ret_len_buf r h0
    exact take_eq_of_length _ _ _ (by simp only [raw_pdu]; omega) rfl
  have hA := test_handler_read_fail c cond r hc
  have hB : 0 < r.len → r.len ≠ ((vs[c.pdu_offset]).length : Int) →
      test_handler c cond r = .error .assert_len_size :=
    fun h0 h1 => test_handler_len_fail c cond r _ hc hp h0 h1
  have hC : 0 < r.len → r.len = ((vs[c.pdu_offset]).length : Int) → r.buf ≠ vs[c.pdu_offset] →
      test_handler c cond r = .error .assert_memcmp :=
    fun h0 h1 h2 => test_handler_memcmp_fail c cond r _ hc hp h0 h1 ((htake h0 h1).not.mpr h2)
  refine ⟨⟨?_, ?_⟩, hA, hB, hC⟩
  · rintro ⟨p, hp⟩
    by_cases h0 : 0 < r.len
    · by_cases h1 : r.len = ((vs[c.pdu_offset]).length : Int)
      · by_cases h2 : r.buf = vs[c.pdu_offset]
        · exact ⟨h0, h1, h2⟩
        · rw [hC h0 h1 h2] at hp
          cases hp
      · rw [hB h0 h1] at hp
        cases hp
    · rw [hA (by omega)] at hp
      cases hp
  · rintro ⟨h0, h1, h2⟩
    rw [test_handler_pass c cond r _ hc hp h0 h1 ((htake h0 h1).mpr h2)]
    obtain ⟨c1, hc1⟩ := context_process_ok vs (after_match c r) hd
      (by have := incr_le c.pdu_offset; simp only [after_match]; omega)
    rw [hc1]
    exact ⟨_, rfl⟩

/-- Witness of C1: the one-vector script of `/TP/GAC/CL/BV-01-C` at cursor 0
with the read returning `02 00 02`. -/
theorem test_handler_match_iff_witness :
    ((∃ p, test_handler (create_context 0 4 (define_test [[2, 0, 2]])) G_IO_IN
          (read_ret.got [2, 0, 2]) = .ok p) ↔
        (0 < (read_ret.got [2, 0, 2]).len ∧ (read_ret.got [2, 0, 2]).len = (3 : Int) ∧
          (read_ret.got [2, 0, 2]).buf = [2, 0, 2])) :=
  (test_handler_match_iff [[2, 0, 2]] (create_context 0 4 (define_test [[2, 0, 2]])) G_IO_IN
    (read_ret.got [2, 0, 2]) rfl (by decide) (by decide)).1

theorem send_pdu_some (c : context) (wret : Int) (pdu : test_pdu)
    (hp : c.data.pdu_list[c.pdu_offset]? = some pdu) :
    send_pdu c wret =
      if wret ≠ (pdu.size : Int) then .error .assert_write_len
      else .ok ({ c with pdu_offset := incr c.pdu_offset, process := 0,
                         trace := c.trace ++ [action.fetch c.pdu_offset,
                                    action.write c.fd (pdu.data.take pdu.size)] }, false) := by
  simp [send_pdu, hp]

theorem send_pdu_ok_inv (c c1 : context) (wret : Int) (keep : Bool)
    (h : send_pdu c wret = .ok (c1, keep)) :
    ∃ pdu, c.data.pdu_list[c.pdu_offset]? = some pdu ∧ wret = (pdu.size : Int) ∧ keep = false ∧
      c1 = { c with pdu_offset := incr c.pdu_offset, process := 0,
                    trace := c.trace ++ [action.fetch c.pdu_offset,
                               action.write c.fd (pdu.data.take pdu.size)] } := by
  cases hp : c.data.pdu_list[c.pdu_offset]? with
  | none => simp [send_pdu, hp] at h
  | some pdu =>
    rw [send_pdu_some c wret pdu hp] at h
    by_cases hw : wret = (pdu.size : Int)
    · rw [if_neg (not_not.mpr hw)] at h
      cases h
      exact ⟨pdu, rfl, hw, rfl, rfl⟩
    · rw [if_pos hw] at h
      cases h

/-- C4. At a cursor `i` that indexes a vector of the script, one firing of
`send_pdu` whose `write` transfers the whole vector issues exactly one `write`
of the bytes of vector `i`, moves the cursor to `i + 1`, sets `process` to 0,
touches nothing else and returns `FALSE`, after which the loop detaches the
idle source; a `write` that returns any other count trips the assertion. -/
theorem send_pdu_spec (vs : List (List Nat)) (c : context) (wret : Int) (id : Nat)
    (hd : c.data = define_test vs) (hi : c.pdu_offset < vs.length)
    (hlen : vs.length < 2 ^ 32) :
    (wret = ((vs[c.pdu_offset]).length : Int) →
      send_pdu c wret =
        .ok ({ c with pdu_offset := c.pdu_offset + 1, process := 0,
                      trace := c.trace ++ [action.fetch c.pdu_offset,
                                 action.write c.fd vs[c.pdu_offset]] }, false) ∧
      ∃ c1, dispatch c (event.idle id wret) = .ok c1 ∧ id ∉ c1.main_loop.idles ∧
        c1.process = 0 ∧ c1.pdu_offset = c.pdu_offset + 1) ∧
    (wret ≠ ((vs[c.pdu_offset]).length : Int) →
      send_pdu c wret = .error .assert_write_len) := by
  have hp : c.data.pdu_list[c.pdu_offset]? = some (raw_pdu vs[c.pdu_offset]) := by
    rw [hd]; exact define_test_lt vs _ hi
  have hinc : incr c.pdu_offset = c.pdu_offset + 1 := incr_eq _ (by omega)
  have hs := send_pdu_some c wret _ hp
  constructor
  · intro hw
    have hw1 : wret = ((raw_pdu vs[c.pdu_offset]).size : Int) := hw
    rw [if_neg (not_not.mpr hw1), hinc] at hs
    have htk : (raw_pdu vs[c.pdu_offset]).data.take (raw_pdu vs[c.pdu_offset]).size
        = vs[c.pdu_offset] := by
      simp [raw_pdu]
    rw [htk] at hs
    refine ⟨hs, ?_⟩
    simp [dispatch, hs, after_callback, g_source_remove]
  · intro hw
    have hw1 : wret ≠ ((raw_pdu vs[c.pdu_offset]).size : Int) := hw
    rw [if_pos hw1] at hs
    exact hs

/-- Witness of C4: the second vector of `/TP/GAD/CL/BV-02-C-1` is sent from
cursor 1. -/
theorem send_pdu_spec_witness :
    send_pdu { create_context 0 4 (define_test [[2, 0, 2], [3, 0, 2]]) with pdu_offset := 1 } 3
      = .ok ({ create_context 0 4 (define_test [[2, 0, 2], [3, 0, 2]]) with
                pdu_offset := 2, process := 0,
                trace := [action.fetch 1, action.write 4 [3, 0, 2]] }, false) :=
  ((send_pdu_spec [[2, 0, 2], [3, 0, 2]]
      { create_context 0 4 (define_test [[2, 0, 2], [3, 0, 2]]) with pdu_offset := 1 } 3 2
      rfl (by decide) (by decide)).1 rfl).1

/-- C10, counterexample. A hangup notification at cursor 0 of the one-vector
script consumes no vector (nothing is read, matched or written) and yet
leaves the cursor at 1. -/
theorem test_handler_hup_moves_cursor :
    ∃ c1, test_handler (create_context 0 4 (define_test [[2, 0, 2]])) G_IO_HUP read_ret.failed
        = .ok (c1, false) ∧
      c1.trace = [action.fetch 0] ∧
      (create_context 0 4 (define_test [[2, 0, 2]])).pdu_offset = 0 ∧ c1.pdu_offset = 1 :=
  ⟨_, rfl, rfl, rfl, rfl⟩

theorem context_quit_pdu_offset (c : context) : (context_quit c).1.pdu_offset = c.pdu_offset := by
  unfold context_quit
  split <;> rfl

theorem context_process_pdu_offset (c c1 : context) (h : context_process c = .ok c1) :
    c1.pdu_offset = c.pdu_offset := by
  cases hp : c.data.pdu_list[c.pdu_offset]? with
  | none => simp [context_process, hp] at h
  | some pdu =>
    rw [context_process_some c pdu hp] at h
    split at h
    · cases h
      exact context_quit_pdu_offset _
    · cases h
      rfl

/-- C10, amended. With the cursor below `UINT_MAX`, every normal return of
`test_handler` - on the readable path and on the error, hangup or invalid
path alike - and every normal return of `send_pdu` moves the cursor up by
exactly one, while `context_process`, `context_quit` and `primary_cb` leave
it where it was; no callback lowers it. -/
theorem cursor_step (c : context) (hlt : c.pdu_offset + 1 < 2 ^ 32) :
    (∀ cond r c1 keep, test_handler c cond r = .ok (c1, keep) →
        c1.pdu_offset = c.pdu_offset + 1) ∧
    (∀ wret c1 keep, send_pdu c wret = .ok (c1, keep) → c1.pdu_offset = c.pdu_offset + 1) ∧
    (∀ c1, context_process c = .ok c1 → c1.pdu_offset = c.pdu_offset) ∧
    (context_quit c).1.pdu_offset = c.pdu_offset ∧
    (∀ success c1, primary_cb c success = .ok c1 → c1.pdu_offset = c.pdu_offset) := by
  have hinc := incr_eq _ hlt
  refine ⟨?_, ?_, context_process_pdu_offset c, context_quit_pdu_offset c, ?_⟩
  · intro cond r c1 keep h
    cases hc : cond_err cond with
    | true =>
      rw [test_handler_err c cond r hc] at h
      cases h
      exact hinc
    | false =>
      obtain ⟨pdu, -, -, -, -, -, hcp⟩ := test_handler_ok_inv c c1 cond r keep hc h
      rw [context_process_pdu_offset _ _ hcp]
      exact hinc
  · intro wret c1 keep h
    obtain ⟨pdu, -, -, -, rfl⟩ := send_pdu_ok_inv c c1 wret keep h
    exact hinc
  · intro success c1 h
    unfold primary_cb at h
    split at h
    · cases h
    · cases h
      exact context_quit_pdu_offset c

/-- Witness of C10 (amended) on the hangup path at cursor 0, and on the send
path at cursor 1 of a two-vector script. -/
theorem cursor_step_witness :
    (∃ c1, test_handler (create_context 0 4 (define_test [[2, 0, 2]])) G_IO_HUP
        read_ret.failed = .ok (c1, false) ∧ c1.pdu_offset = 0 + 1) ∧
    (∃ c1, send_pdu { create_context 0 4 (define_test [[2, 0, 2], [3, 0, 2]]) with
          pdu_offset := 1 } 3 = .ok (c1, false) ∧ c1.pdu_offset = 1 + 1) :=
  ⟨⟨_, rfl,
      (cursor_step (create_context 0 4 (define_test [[2, 0, 2]])) (by decide)).1
        G_IO_HUP read_ret.failed _ false rfl⟩,
    ⟨_, rfl,
      (cursor_step { create_context 0 4 (define_test [[2, 0, 2], [3, 0, 2]]) with
          pdu_offset := 1 } (by decide)).2.1 3 _ false rfl⟩⟩

/-- C6, counterexample. A hangup notification on the freshly created context
of the one-vector script returns normally with the loop still running: the
loop is not stopped and no assertion fails. -/
theorem test_handler_hup_keeps_running :
    ∃ c1, dispatch (create_context 0 4 (define_test [[2, 0, 2]]))
          (event.watch 1 G_IO_HUP read_ret.failed) = .ok c1 ∧
      c1.main_loop.quit = false ∧ action.loop_quit ∉ c1.trace :=
  ⟨_, rfl, rfl, by decide⟩

/-- C6, amended. For every context and every condition with `G_IO_ERR`,
`G_IO_HUP` or `G_IO_NVAL` set, `test_handler` returns `FALSE` without any
assertion, clears `source`, calls neither `read` nor `memcmp`, schedules and
removes nothing and does not stop the loop; the loop then detaches the watch
`id`, keeps the idle sources (all those with another id) and keeps running. -/
theorem test_handler_error_path (c : context) (cond : Nat) (r : read_ret) (id : Nat)
    (hc : cond_err cond = true) :
    ∃ c1, test_handler c cond r = .ok (c1, false) ∧
      c1.source = 0 ∧ c1.process = c.process ∧ c1.main_loop = c.main_loop ∧
      c1.trace = c.trace ++ [action.fetch c.pdu_offset] ∧
      (∀ r2, test_handler c cond r2 = test_handler c cond r) ∧
      ∃ c2, dispatch c (event.watch id cond r) = .ok c2 ∧
        id ∉ c2.main_loop.watches ∧ c2.source = 0 ∧
        c2.main_loop.quit = c.main_loop.quit ∧ c2.trace = c1.trace ∧
        c2.main_loop.idles = c.main_loop.idles.filter (fun x => decide (x ≠ id)) := by
  refine ⟨_, test_handler_err c cond r hc, rfl, rfl, rfl, rfl, ?_, ?_⟩
  · intro r2
    rw [test_handler_err c cond r hc, test_handler_err c cond r2 hc]
  · simp [dispatch, test_handler_err c cond r hc, after_callback, g_source_remove]

/-- Witness of C6 (amended): a hangup on the fresh context of the one-vector
script. -/
theorem test_handler_error_path_witness :
    ∃ c1, test_handler (create_context 0 4 (define_test [[2, 0, 2]])) G_IO_HUP read_ret.failed
        = .ok (c1, false) ∧ c1.source = 0 ∧ c1.main_loop.quit = false := by
  obtain ⟨c1, h, hs, -, hm, -⟩ :=
    test_handler_error_path (create_context 0 4 (define_test [[2, 0, 2]])) G_IO_HUP
      read_ret.failed 1 (by decide)
  exact ⟨c1, h, hs, by rw [hm]; rfl⟩

theorem context_quit_eq (c : context) :
    (context_quit c).1 =
      { c with
        main_loop := g_main_loop_quit
          (if c.process > 0 then g_source_remove c.main_loop c.process else c.main_loop),
        trace := c.trace ++
          (if c.process > 0 then
            [action.source_remove c.process (attached c.main_loop c.process)] else []) ++
          [action.loop_quit] } := by
  unfold context_quit
  by_cases h : c.process > 0 <;> simp [h]

theorem after_match_effect (vs : List (List Nat)) (c c1 : context) (cond : Nat)
    (r : read_ret) (keep : Bool)
    (hd : c.data = define_test vs) (hi : c.pdu_offset < vs.length) (hlen : vs.length < 2 ^ 32)
    (hc : cond_err cond = false) (h : test_handler c cond r = .ok (c1, keep)) :
    keep = true ∧ c1.pdu_offset = c.pdu_offset + 1 ∧ r.buf = vs[c.pdu_offset] ∧
    (c.data.pdu_list[c.pdu_offset + 1]? = some sentinel →
      c1.main_loop.quit = true ∧
      c1.main_loop.idles =
        (if c.process > 0 then c.main_loop.idles.filter (fun x => decide (x ≠ c.process))
          else c.main_loop.idles) ∧
      c1.main_loop.next_id = c.main_loop.next_id ∧ c1.process = c.process ∧
      c1.trace = c.trace ++
        [action.fetch c.pdu_offset, action.read c.fd, action.matched vs[c.pdu_offset],
          action.fetch (c.pdu_offset + 1)] ++
        (if c.process > 0 then
          [action.source_remove c.process (attached c.main_loop c.process)] else []) ++
        [action.loop_quit] ∧
      ((∀ x ∈ c.main_loop.idles, x = c.process ∧ 0 < x) → c1.main_loop.idles = [])) ∧
    (c.data.pdu_list[c.pdu_offset + 1]? ≠ some sentinel →
      c.pdu_offset + 1 < vs.length ∧
      c1.main_loop.quit = c.main_loop.quit ∧
      c1.main_loop.idles = c.main_loop.idles ++ [c.main_loop.next_id] ∧
      c1.main_loop.watches = c.main_loop.watches ∧
      c1.process = c.main_loop.next_id ∧
      c1.trace = c.trace ++
        [action.fetch c.pdu_offset, action.read c.fd, action.matched vs[c.pdu_offset],
          action.fetch (c.pdu_offset + 1), action.idle_add c.main_loop.next_id]) := by
  obtain ⟨pdu, hp, h0, h1, h2, hk, hcp⟩ := test_handler_ok_inv c c1 cond r keep hc h
  have hp2 : c.data.pdu_list[c.pdu_offset]? = some (raw_pdu vs[c.pdu_offset]) := by
    rw [hd]; exact define_test_lt vs _ hi
  rw [hp2] at hp
  cases hp
  have hinc : incr c.pdu_offset = c.pdu_offset + 1 := incr_eq _ (by omega)
  have hbuf : r.buf = vs[c.pdu_offset] := by
    have h3 := read_ret_len_buf r h0
    exact (take_eq_of_length _ _ _ (by simp only [raw_pdu] at h1; omega) rfl).mp h2
  have hoff : (after_match c r).pdu_offset = c.pdu_offset + 1 := hinc
  refine ⟨hk, ?_, hbuf, ?_, ?_⟩
  · rw [context_process_pdu_offset _ _ hcp]
    exact hinc
  · intro hs
    have hs2 : (after_match c r).data.pdu_list[(after_match c r).pdu_offset]? = some sentinel := by
      rw [hoff]; exact hs
    rw [context_process_some _ _ hs2] at hcp
    simp only [sentinel, Bool.not_false, if_true] at hcp
    cases hcp
    rw [context_quit_eq]
    refine ⟨rfl, ?_, ?_, rfl, ?_, ?_⟩
    · by_cases hpz : c.process > 0 <;>
        simp [after_match, hpz, g_main_loop_quit, g_source_remove]
    · by_cases hpz : c.process > 0 <;>
        simp [after_match, hpz, g_main_loop_quit, g_source_remove]
    · simp [after_match, hinc, hbuf]
    · intro hall
      simp only [after_match]
      by_cases hpz : c.process > 0
      · simp only [hpz, if_true, g_main_loop_quit, g_source_remove]
        rw [List.filter_eq_nil_iff]
        intro x hx
        simp [(hall x hx).1]
      · simp only [hpz, if_false, g_main_loop_quit]
        cases hid : c.main_loop.idles with
        | nil => rfl
        | cons x xs =>
          have := hall x (by rw [hid]; simp)
          omega
  · intro hs
    have hlt : c.pdu_offset + 1 < vs.length := by
      by_contra hge
      have : c.pdu_offset + 1 = vs.length := by omega
      apply hs
      rw [hd, this]
      exact define_test_last vs
    have hp3 : (after_match c r).data.pdu_list[(after_match c r).pdu_offset]?
        = some (raw_pdu vs[c.pdu_offset + 1]) := by
      rw [hoff]
      show c.data.pdu_list[c.pdu_offset + 1]? = _
      rw [hd]; exact define_test_lt vs _ hlt
    rw [context_process_some _ _ hp3] at hcp
    simp only [raw_pdu, Bool.not_true] at hcp
    cases hcp
    simp [after_match, hinc, hbuf, g_idle_add, hlt]

/-- C3, counterexample. On a three-vector script two matches in a row leave
the deferred sends 2 and 3 attached with `process = 3`; the third match finds
the sentinel at the next position and stops the loop, but `context_quit`
removes only the send named by `process`, and the send 2 stays attached. -/
theorem sentinel_stop_leaves_send :
    ∃ c c1, run enabled (create_context 0 4 (define_test [[1], [2], [3]]))
          [event.watch 1 G_IO_IN (read_ret.got [1]), event.watch 1 G_IO_IN (read_ret.got [2])]
        = some c ∧
      c.main_loop.idles = [2, 3] ∧ c.process = 3 ∧ c.pdu_offset = 2 ∧
      c.data.pdu_list[c.pdu_offset + 1]? = some sentinel ∧
      test_handler c G_IO_IN (read_ret.got [3]) = .ok (c1, true) ∧
      c1.main_loop.quit = true ∧ c1.main_loop.idles = [2] :=
  ⟨_, _, rfl, rfl, rfl, rfl, rfl, rfl, rfl, rfl⟩

/-- C3, amended. At a cursor `i` that indexes a vector, a readable
notification whose read returns the bytes of that vector (at least one) makes
`test_handler` return `TRUE` with the cursor at `i + 1`, and: when the entry
at `i + 1` is the sentinel, the idle source named by `process` (if
`process > 0`) is removed and no other, `g_main_loop_quit` is called and
`g_idle_add` is not - so no deferred send stays attached when every attached
one is named by `process`; when the entry at `i + 1` is a vector, `g_idle_add`
is called exactly once, its id is stored in `process`, and the loop is not
stopped. On the one-vector script `02 00 02` the matching read leaves the
cursor at 1, the loop stopped, and nothing written. -/
theorem test_handler_after_match (vs : List (List Nat)) (c : context) (cond : Nat)
    (r : read_ret)
    (hd : c.data = define_test vs) (hi : c.pdu_offset < vs.length) (hlen : vs.length < 2 ^ 32)
    (hc : cond_err cond = false) (hr : r = read_ret.got vs[c.pdu_offset])
    (hne : vs[c.pdu_offset] ≠ []) :
    (∃ c1, test_handler c cond r = .ok (c1, true) ∧
      c1.pdu_offset = c.pdu_offset + 1 ∧
      (c.data.pdu_list[c.pdu_offset + 1]? = some sentinel →
        c1.main_loop.quit = true ∧
        c1.main_loop.idles =
          (if c.process > 0 then c.main_loop.idles.filter (fun x => decide (x ≠ c.process))
            else c.main_loop.idles) ∧
        c1.main_loop.next_id = c.main_loop.next_id ∧ c1.process = c.process ∧
        c1.trace = c.trace ++
          [action.fetch c.pdu_offset, action.read c.fd, action.matched vs[c.pdu_offset],
            action.fetch (c.pdu_offset + 1)] ++
          (if c.process > 0 then
            [action.source_remove c.process (attached c.main_loop c.process)] else []) ++
          [action.loop_quit] ∧
        ((∀ x ∈ c.main_loop.idles, x = c.process ∧ 0 < x) → c1.main_loop.idles = [])) ∧
      (c.data.pdu_list[c.pdu_offset + 1]? ≠ some sentinel →
        c.pdu_offset + 1 < vs.length ∧
        c1.main_loop.quit = c.main_loop.quit ∧
        c1.main_loop.idles = c.main_loop.idles ++ [c.main_loop.next_id] ∧
        c1.main_loop.watches = c.main_loop.watches ∧
        c1.process = c.main_loop.next_id ∧
        c1.trace = c.trace ++
          [action.fetch c.pdu_offset, action.read c.fd, action.matched vs[c.pdu_offset],
            action.fetch (c.pdu_offset + 1), action.idle_add c.main_loop.next_id])) ∧
    (∃ c2, test_handler (create_context 0 4 (define_test gac_cl_bv_01_c)) G_IO_IN
          (read_ret.got [0x02, 0x00, 0x02]) = .ok (c2, true) ∧
        c2.pdu_offset = 1 ∧ c2.main_loop.quit = true ∧ c2.main_loop.idles = [] ∧
        written c2.trace = []) := by
  refine ⟨?_, ⟨_, rfl, rfl, rfl, rfl, rfl⟩⟩
  have hp : c.data.pdu_list[c.pdu_offset]? = some (raw_pdu vs[c.pdu_offset]) := by
    rw [hd]; exact define_test_lt vs _ hi
  have hpos : 0 < (vs[c.pdu_offset]).length := List.length_pos.mpr hne
  have h0 : 0 < r.len := by
    rw [hr]; simp only [read_ret.len]; omega
  have h1 : r.len = ((raw_pdu vs[c.pdu_offset]).size : Int) := by
    rw [hr]; rfl
  have h2 : r.buf.take (raw_pdu vs[c.pdu_offset]).size
      = (raw_pdu vs[c.pdu_offset]).data.take (raw_pdu vs[c.pdu_offset]).size := by
    rw [hr]; rfl
  obtain ⟨c1, hc1⟩ := context_process_ok vs (after_match c r) hd
    (by have := incr_le c.pdu_offset; simp only [after_match]; omega)
  have hth : test_handler c cond r = .ok (c1, true) := by
    rw [test_handler_pass c cond r _ hc hp h0 h1 h2, hc1]
  obtain ⟨-, ha, -, hb, hcc⟩ := after_match_effect vs c c1 cond r true hd hi hlen hc hth
  exact ⟨c1, hth, ha, hb, hcc⟩

/-- Witness of C3 (amended): the matching read of `/TP/GAC/CL/BV-01-C`. -/
theorem test_handler_after_match_witness :
    (define_test gac_cl_bv_01_c).pdu_list[0 + 1]? = some sentinel ∧
    ∃ c1, test_handler (create_context 0 4 (define_test gac_cl_bv_01_c)) G_IO_IN
        (read_ret.got [0x02, 0x00, 0x02]) = .ok (c1, true) ∧ c1.pdu_offset = 1 ∧
      c1.main_loop.quit = true := by
  obtain ⟨c1, h, ho, hs, -⟩ :=
    (test_handler_after_match gac_cl_bv_01_c (create_context 0 4 (define_test gac_cl_bv_01_c))
      G_IO_IN (read_ret.got [0x02, 0x00, 0x02]) rfl (by decide) (by decide) (by decide) rfl
      (by decide)).1
  exact ⟨rfl, c1, h, ho, (hs rfl).1⟩

theorem run_cons_inv (g : context → event → Bool) (c c2 : context) (e : event) (es : List event)
    (h : run g c (e :: es) = some c2) :
    ∃ c1, g c e = true ∧ dispatch c e = .ok c1 ∧ run g c1 es = some c2 := by
  unfold run at h
  by_cases hg : g c e = true
  · rw [if_pos hg] at h
    cases hd : dispatch c e with
    | error f => rw [hd] at h; cases h
    | ok c1 => rw [hd] at h; exact ⟨c1, hg, rfl, h⟩
  · rw [if_neg hg] at h
    cases h

theorem run_append_inv (g : context → event → Bool) (es : List event) (e : event) :
    ∀ (c c2 : context), run g c (es ++ [e]) = some c2 →
      ∃ c1, run g c es = some c1 ∧ g c1 e = true ∧ dispatch c1 e = .ok c2 := by
  induction es with
  | nil =>
    intro c c2 h
    obtain ⟨c1, hg, hd, hr⟩ := run_cons_inv g c c2 e [] h
    cases hr
    exact ⟨c, rfl, hg, hd⟩
  | cons a as ih =>
    intro c c2 h
    obtain ⟨c1, hg, hd, hr⟩ := run_cons_inv g c c2 a (as ++ [e]) h
    obtain ⟨c3, h3, hg3, hd3⟩ := ih c1 c2 hr
    refine ⟨c3, ?_, hg3, hd3⟩
    show run g c (a :: as) = some c3
    unfold run
    rw [if_pos hg, hd]
    exact h3

theorem run_invariant (g : context → event → Bool) (P : context → Prop)
    (hstep : ∀ c e c1, P c → g c e = true → dispatch c e = .ok c1 → P c1) :
    ∀ (es : List event) (c c2 : context), P c → run g c es = some c2 → P c2 := by
  intro es
  induction es with
  | nil =>
    intro c c2 hP h
    cases h
    exact hP
  | cons e es ih =>
    intro c c2 hP h
    obtain ⟨c1, hg, hd, hr⟩ := run_cons_inv g c c2 e es h
    exact ih c1 c2 (hstep c e c1 hP hg hd) hr

theorem failure_free_one_at_a_time (c : context) (e : event) (h : failure_free c e = true) :
    one_at_a_time c e = true := by
  cases e with
  | watch id cond r =>
    simp only [failure_free, one_at_a_time, Bool.and_eq_true, Bool.or_eq_true] at h ⊢
    exact ⟨h.1, Or.inr h.2.2⟩
  | idle id wret => exact h
  | completion s => exact h

theorem one_at_a_time_enabled (c : context) (e : event) (h : one_at_a_time c e = true) :
    enabled c e = true := by
  simp only [one_at_a_time, Bool.and_eq_true] at h
  exact h.1

theorem enabled_running (c : context) (e : event) (h : enabled c e = true) :
    c.main_loop.quit = false := by
  cases e with
  | watch id cond r =>
    simp only [enabled, Bool.and_eq_true, Bool.not_eq_true'] at h
    exact h.1
  | idle id wret =>
    simp only [enabled, Bool.and_eq_true, Bool.not_eq_true'] at h
    exact h.1
  | completion s =>
    simpa [enabled] using h

/-- Explicit result of a dispatch, by kind of event. -/
theorem dispatch_cases (c c1 : context) (e : event) (h : dispatch c e = .ok c1) :
    (∃ id cond r, e = event.watch id cond r ∧ cond_err cond = true ∧
        c1 = { c with pdu_offset := incr c.pdu_offset,
                      trace := c.trace ++ [action.fetch c.pdu_offset],
                      source := 0,
                      main_loop := g_source_remove c.main_loop id }) ∨
    (∃ id cond r pdu nxt, e = event.watch id cond r ∧ cond_err cond = false ∧
        c.data.pdu_list[c.pdu_offset]? = some pdu ∧ 0 < pdu.size ∧
        r.buf.take pdu.size = pdu.data.take pdu.size ∧ r.buf.length = pdu.size ∧
        c.data.pdu_list[incr c.pdu_offset]? = some nxt ∧ nxt.valid = false ∧
        c1 = { c with pdu_offset := incr c.pdu_offset,
                      main_loop := g_main_loop_quit
                        (if c.process > 0 then g_source_remove c.main_loop c.process
                          else c.main_loop),
                      trace := c.trace ++ [action.fetch c.pdu_offset, action.read c.fd,
                                  action.matched r.buf, action.fetch (incr c.pdu_offset)] ++
                        (if c.process > 0 then
                          [action.source_remove c.process (attached c.main_loop c.process)]
                          else []) ++ [action.loop_quit] }) ∨
    (∃ id cond r pdu nxt, e = event.watch id cond r ∧ cond_err cond = false ∧
        c.data.pdu_list[c.pdu_offset]? = some pdu ∧ 0 < pdu.size ∧
        r.buf.take pdu.size = pdu.data.take pdu.size ∧ r.buf.length = pdu.size ∧
        c.data.pdu_list[incr c.pdu_offset]? = some nxt ∧ nxt.valid = true ∧
        c1 = { c with pdu_offset := incr c.pdu_offset,
                      main_loop := (g_idle_add c.main_loop).1,
                      process := c.main_loop.next_id,
                      trace := c.trace ++ [action.fetch c.pdu_offset, action.read c.fd,
                                  action.matched r.buf, action.fetch (incr c.pdu_offset),
                                  action.idle_add c.main_loop.next_id] }) ∨
    (∃ id wret pdu, e = event.idle id wret ∧
        c.data.pdu_list[c.pdu_offset]? = some pdu ∧ wret = (pdu.size : Int) ∧
        c1 = { c with pdu_offset := incr c.pdu_offset, process := 0,
                      trace := c.trace ++ [action.fetch c.pdu_offset,
                                 action.write c.fd (pdu.data.take pdu.size)],
                      main_loop := g_source_remove c.main_loop id }) ∨
    (e = event.completion true ∧
        c1 = { c with
                main_loop := g_main_loop_quit
                  (if c.process > 0 then g_source_remove c.main_loop c.process
                    else c.main_loop),
                trace := c.trace ++
                  (if c.process > 0 then
                    [action.source_remove c.process (attached c.main_loop c.process)]
                    else []) ++ [action.loop_quit] }) := by
  cases e with
  | watch id cond r =>
    simp only [dispatch] at h
    cases hth : test_handler c cond r with
    | error f => rw [hth] at h; cases h
    | ok p =>
      rw [hth] at h
      cases h
      obtain ⟨c3, keep⟩ := p
      cases hc : cond_err cond with
      | true =>
        left
        rw [test_handler_err c cond r hc] at hth
        cases hth
        exact ⟨id, cond, r, rfl, hc, rfl⟩
      | false =>
        right
        obtain ⟨pdu, hp, h0, h1, h2, hk, hcp⟩ := test_handler_ok_inv c c3 cond r keep hc hth
        subst hk
        have h3 := read_ret_len_buf r h0
        have hsz : 0 < pdu.size := by omega
        have hbl : r.buf.length = pdu.size := by omega
        cases hn : (after_match c r).data.pdu_list[(after_match c r).pdu_offset]? with
        | none => simp [context_process, hn] at hcp
        | some nxt =>
          rw [context_process_some _ _ hn] at hcp
          cases hv : nxt.valid with
          | false =>
            left
            rw [hv] at hcp
            simp only [Bool.not_false, if_true] at hcp
            cases hcp
            refine ⟨id, cond, r, pdu, nxt, rfl, hc, hp, hsz, h2, hbl, hn, hv, ?_⟩
            simp only [after_callback, if_true]
            rw [context_quit_eq]
            simp [after_match]
          | true =>
            right; left
            rw [hv] at hcp
            simp only [Bool.not_true] at hcp
            cases hcp
            refine ⟨id, cond, r, pdu, nxt, rfl, hc, hp, hsz, h2, hbl, hn, hv, ?_⟩
            simp [after_callback, after_match, g_idle_add]
  | idle id wret =>
    simp only [dispatch] at h
    cases hs : send_pdu c wret with
    | error f => rw [hs] at h; cases h
    | ok p =>
      rw [hs] at h
      cases h
      obtain ⟨c3, keep⟩ := p
      obtain ⟨pdu, hp, hw, hk, hc3⟩ := send_pdu_ok_inv c c3 wret keep hs
      subst hk hc3
      right; right; right; left
      exact ⟨id, wret, pdu, rfl, hp, hw, rfl⟩
  | completion s =>
    right; right; right; right
    simp only [dispatch, primary_cb] at h
    cases s with
    | false => simp at h
    | true =>
      simp only [Bool.not_true] at h
      cases h
      exact ⟨rfl, context_quit_eq c⟩

theorem filter_ne_of_not_mem (l : List Nat) (id : Nat) (h : id ∉ l) :
    l.filter (fun x => decide (x ≠ id)) = l := by
  rw [List.filter_eq_self]
  intro a ha
  have : a ≠ id := fun hh => h (hh ▸ ha)
  simpa using this

theorem harness_inv_init (vs : List (List Nat)) (n : Nat) (sv1 : Int) :
    harness_inv vs (create_context n sv1 (define_test vs)) := by
  constructor <;> simp [create_context, g_io_add_watch, g_main_loop_new]

theorem harness_inv_step (vs : List (List Nat)) (c c1 : context) (e : event)
    (hI : harness_inv vs c) (hg : one_at_a_time c e = true) (hd : dispatch c e = .ok c1) :
    harness_inv vs c1 := by
  obtain ⟨hdata, hnext, hwatch, hslt, hdist, hidles, hcur, hfet, hrem⟩ := hI
  rcases dispatch_cases c c1 e hd with
    ⟨id, cond, r, rfl, hc, rfl⟩ | ⟨id, cond, r, pdu, nxt, rfl, hc, hp, hsz, -, -, hn, hv, rfl⟩ |
    ⟨id, cond, r, pdu, nxt, rfl, hc, hp, hsz, -, -, hn, hv, rfl⟩ |
    ⟨id, wret, pdu, rfl, hp, hw, rfl⟩ | ⟨rfl, rfl⟩
  · -- error, hangup or invalid notification
    simp only [one_at_a_time, enabled, Bool.and_eq_true, Bool.not_eq_true', decide_eq_true_eq,
      hc, Bool.true_or, and_true] at hg
    obtain ⟨hq, hmem⟩ := hg
    have hw : 0 < c.source ∧ c.main_loop.watches = [c.source] := by
      rcases hwatch with ⟨-, h⟩ | h
      · rw [h] at hmem; cases hmem
      · exact h
    have hid : id = c.source := by
      rw [hw.2] at hmem; simpa using hmem
    subst hid
    have hni : c.source ∉ c.main_loop.idles := by
      rcases hidles with ⟨h, -⟩ | ⟨-, -, h⟩
      · rw [h]; simp
      · rw [h]
        intro hh
        apply hdist
        rw [hw.2]
        simp at hh
        simp [hh]
    have hidl : (g_source_remove c.main_loop c.source).idles = c.main_loop.idles :=
      filter_ne_of_not_mem _ _ hni
    have hwat : (g_source_remove c.main_loop c.source).watches = [] := by
      simp [g_source_remove, hw.2]
    have hne : c.main_loop.watches ≠ [] := by rw [hw.2]; simp
    have hinc := incr_le c.pdu_offset
    constructor
    · exact hdata
    · exact hnext
    · exact Or.inl ⟨rfl, hwat⟩
    · exact hnext
    · simp only [hwat]; simp
    · simp only [hidl]; exact hidles
    · simp only [hidl, hwat, if_true]
      rw [if_neg hne] at hcur
      omega
    · intro i hi
      simp only [List.mem_append, List.mem_singleton, action.fetch.injEq] at hi
      rcases hi with hi | hi
      · exact hfet i hi
      · rw [if_neg hne] at hcur
        omega
    · intro x hx
      simp only [List.mem_append, List.mem_singleton] at hx
      rcases hx with hx | hx
      · exact hrem x hx
      · cases hx
  · -- readable notification, the script ends after the matched vector
    simp only [one_at_a_time, enabled, Bool.and_eq_true, Bool.not_eq_true', decide_eq_true_eq,
      hc, Bool.false_or, List.isEmpty_iff] at hg
    obtain ⟨⟨hq, hmem⟩, hnil⟩ := hg
    have hpz : c.process = 0 := by
      rcases hidles with ⟨-, h⟩ | ⟨-, -, h⟩
      · exact h hq
      · rw [hnil] at h; cases h
    have hnp : ¬ c.process > 0 := by omega
    rw [hdata] at hn
    have hi2 := (define_test_some vs _ _ hn).1
    rw [hdata] at hp
    have hi1 := (define_test_some vs _ _ hp).1
    simp only [hnp, if_false, List.append_nil]
    constructor
    · exact hdata
    · exact hnext
    · exact hwatch
    · exact hslt
    · exact hdist
    · exact Or.inl ⟨hnil, fun h => by simp [g_main_loop_quit] at h⟩
    · simp only [g_main_loop_quit, hnil, if_true]
      omega
    · intro i hi
      simp only [List.mem_append, List.mem_cons, List.mem_singleton, action.fetch.injEq,
        List.mem_nil_iff, or_false, false_or, reduceCtorEq] at hi
      rcases hi with hi | hi | hi
      · exact hfet i hi
      · omega
      · omega
    · intro x hx
      simp only [List.mem_append, List.mem_cons, List.mem_singleton, List.mem_nil_iff, or_false,
        reduceCtorEq, false_or] at hx
      exact hrem x hx
  · -- readable notification, another vector follows
    simp only [one_at_a_time, enabled, Bool.and_eq_true, Bool.not_eq_true', decide_eq_true_eq,
      hc, Bool.false_or, List.isEmpty_iff] at hg
    obtain ⟨⟨hq, hmem⟩, hnil⟩ := hg
    rw [hdata] at hn
    have hi2 := (define_test_some vs _ _ hn).2.2.1.mp hv
    rw [hdata] at hp
    have hi1 := (define_test_some vs _ _ hp).1
    constructor
    · exact hdata
    · simp [g_idle_add]
    · simpa [g_idle_add] using hwatch
    · simp only [g_idle_add]; omega
    · simp only [g_idle_add]
      rcases hwatch with ⟨-, h⟩ | ⟨-, h⟩
      · rw [h]; simp
      · rw [h]; simp; omega
    · right
      refine ⟨hq, hnext, ?_⟩
      simp [g_idle_add, hnil]
    · simp only [g_idle_add, hnil, List.nil_append]
      simp
      omega
    · intro i hi
      simp only [List.mem_append, List.mem_cons, List.mem_singleton, action.fetch.injEq,
        List.mem_nil_iff, or_false, false_or, reduceCtorEq] at hi
      rcases hi with hi | hi | hi
      · exact hfet i hi
      · omega
      · omega
    · intro x hx
      simp only [List.mem_append, List.mem_cons, List.mem_singleton, List.mem_nil_iff, or_false,
        reduceCtorEq, false_or] at hx
      exact hrem x hx
  · -- a deferred send fires
    simp only [one_at_a_time, enabled, Bool.and_eq_true, Bool.not_eq_true', decide_eq_true_eq,
      and_true] at hg
    obtain ⟨hq, hmem⟩ := hg
    have hpr : 0 < c.process ∧ c.main_loop.idles = [c.process] := by
      rcases hidles with ⟨h, -⟩ | ⟨-, h⟩
      · rw [h] at hmem; cases hmem
      · exact h
    have hid : id = c.process := by
      rw [hpr.2] at hmem; simpa using hmem
    subst hid
    have hwat : (g_source_remove c.main_loop c.process).watches = c.main_loop.watches :=
      filter_ne_of_not_mem _ _ hdist
    have hidl : (g_source_remove c.main_loop c.process).idles = [] := by
      simp [g_source_remove, hpr.2]
    have hne : c.main_loop.idles ≠ [] := by rw [hpr.2]; simp
    rw [if_neg hne] at hcur
    have hinc := incr_le c.pdu_offset
    constructor
    · exact hdata
    · exact hnext
    · simp only [hwat]; exact hwatch
    · exact hslt
    · simp only [hwat]
      rcases hwatch with ⟨-, h⟩ | ⟨h1, h⟩
      · rw [h]; simp
      · rw [h]; simp; omega
    · exact Or.inl ⟨hidl, fun _ => rfl⟩
    · simp only [hwat, hidl, if_true]
      omega
    · intro i hi
      simp only [List.mem_append, List.mem_cons, List.mem_singleton, action.fetch.injEq,
        List.mem_nil_iff, or_false, false_or, reduceCtorEq] at hi
      rcases hi with hi | hi
      · exact hfet i hi
      · split at hcur <;> omega
    · intro x hx
      simp only [List.mem_append, List.mem_cons, List.mem_singleton, List.mem_nil_iff, or_false,
        reduceCtorEq, false_or] at hx
      exact hrem x hx
  · -- the completion callback reports success
    simp only [one_at_a_time, enabled, Bool.and_eq_true, Bool.not_eq_true', and_true] at hg
    by_cases hpz : c.process > 0
    · have hpr : c.main_loop.idles = [c.process] := by
        rcases hidles with ⟨-, h⟩ | ⟨-, -, h⟩
        · have := h hg; omega
        · exact h
      have hwat : (g_source_remove c.main_loop c.process).watches = c.main_loop.watches :=
        filter_ne_of_not_mem _ _ hdist
      have hidl : (g_source_remove c.main_loop c.process).idles = [] := by
        simp [g_source_remove, hpr]
      have hatt : attached c.main_loop c.process = true := by
        simp [attached, hpr]
      simp only [hpz, if_true, hatt]
      constructor
      · exact hdata
      · exact hnext
      · simp only [g_main_loop_quit, hwat]; exact hwatch
      · exact hslt
      · simp only [g_main_loop_quit, hwat]; exact hdist
      · exact Or.inl ⟨hidl, fun h => by simp [g_main_loop_quit] at h⟩
      · simp only [g_main_loop_quit, hwat, hidl, if_true]
        split at hcur <;> omega
      · intro i hi
        simp only [List.mem_append, List.mem_cons, List.mem_singleton, List.mem_nil_iff,
          or_false, false_or, reduceCtorEq] at hi
        exact hfet i hi
      · intro x hx
        simp only [List.mem_append, List.mem_cons, List.mem_singleton, List.mem_nil_iff,
          or_false, reduceCtorEq, action.source_remove.injEq, Bool.true_eq_false, and_false]
          at hx
        exact hrem x hx
    · have hnil : c.main_loop.idles = [] := by
        rcases hidles with ⟨h, -⟩ | ⟨-, h, -⟩
        · exact h
        · omega
      simp only [hpz, if_false, List.append_nil]
      constructor
      · exact hdata
      · exact hnext
      · exact hwatch
      · exact hslt
      · exact hdist
      · exact Or.inl ⟨hnil, fun h => by simp [g_main_loop_quit] at h⟩
      · simp only [g_main_loop_quit]
        exact hcur
      · intro i hi
        simp only [List.mem_append, List.mem_cons, List.mem_singleton, List.mem_nil_iff,
          or_false, false_or, reduceCtorEq] at hi
        exact hfet i hi
      · intro x hx
        simp only [List.mem_append, List.mem_cons, List.mem_singleton, List.mem_nil_iff,
          or_false, reduceCtorEq] at hx
        exact hrem x hx

theorem harness_inv_run (vs : List (List Nat)) (n : Nat) (sv1 : Int) (es : List event)
    (c : context) (h : run one_at_a_time (create_context n sv1 (define_test vs)) es = some c) :
    harness_inv vs c :=
  run_invariant one_at_a_time (harness_inv vs)
    (fun c e c1 hI hg hd => harness_inv_step vs c c1 e hI hg hd) es _ c
    (harness_inv_init vs n sv1) h

/-- C7, counterexample. On a three-vector script two readable notifications
in a row, each matching its vector, leave two `send_pdu` idle sources
attached; `process` names only the second. -/
theorem two_sends_pending :
    ∃ c, run enabled (create_context 0 4 (define_test [[1], [2], [3]]))
          [event.watch 1 G_IO_IN (read_ret.got [1]), event.watch 1 G_IO_IN (read_ret.got [2])]
        = some c ∧
      c.main_loop.idles = [2, 3] ∧ c.process = 3 :=
  ⟨_, rfl, rfl, rfl⟩

/-- C7, amended. In every state reached from a freshly created context by
harness events among which a readable notification is handled only while no
deferred send is attached (error, hangup and invalid notifications, firings
of the deferred send and the completion callback come in any order), at most
one `send_pdu` idle source is attached, and `process` is its id. -/
theorem at_most_one_send (vs : List (List Nat)) (n : Nat) (sv1 : Int) (es : List event)
    (c : context) (h : run one_at_a_time (create_context n sv1 (define_test vs)) es = some c) :
    c.main_loop.idles.length ≤ 1 ∧ ∀ id ∈ c.main_loop.idles, id = c.process ∧ 0 < id := by
  have hI := harness_inv_run vs n sv1 es c h
  rcases hI.idles with ⟨h1, -⟩ | ⟨-, h1, h2⟩
  · rw [h1]; simp
  · rw [h2]
    simp
    exact h1

/-- Witness of C7 (amended): after the first match of a two-vector script one
send is attached. -/
theorem at_most_one_send_witness :
    ∃ c, run one_at_a_time (create_context 0 4 (define_test [[2, 0, 2], [3, 0, 2]]))
          [event.watch 1 G_IO_IN (read_ret.got [2, 0, 2])] = some c ∧
      c.main_loop.idles = [2] ∧
      (c.main_loop.idles.length ≤ 1 ∧ ∀ id ∈ c.main_loop.idles, id = c.process ∧ 0 < id) :=
  ⟨_, rfl, rfl,
    at_most_one_send [[2, 0, 2], [3, 0, 2]] 0 4
      [event.watch 1 G_IO_IN (read_ret.got [2, 0, 2])] _ rfl⟩

/-- C8, counterexample. On a two-vector script a match, the deferred send and
then a hangup leave the cursor at 3, past the sentinel index 2. And on a
three-vector script, with no error notification at all, two matches in a row
schedule two sends: the first writes the third vector, the second fetches the
sentinel, writes its zero bytes (`write` returns 0, which equals its `size`)
and leaves the cursor at 4, past the sentinel index 3, with the watch still
attached; the next readable notification then dereferences `pdu_list[4]`,
outside the four-element array. -/
theorem cursor_passes_sentinel :
    (∃ c, run enabled (create_context 0 4 (define_test [[1], [2]]))
          [event.watch 1 G_IO_IN (read_ret.got [1]), event.idle 2 1,
            event.watch 1 G_IO_HUP read_ret.failed] = some c ∧
      c.pdu_offset = 3 ∧ [[1], [2]].length = 2) ∧
    (∃ c, run enabled (create_context 0 4 (define_test [[1], [2], [3]]))
          [event.watch 1 G_IO_IN (read_ret.got [1]), event.watch 1 G_IO_IN (read_ret.got [2]),
            event.idle 2 1, event.idle 3 0] = some c ∧
      c.pdu_offset = 4 ∧ [[1], [2], [3]].length = 3 ∧
      c.main_loop.watches = [1] ∧ c.main_loop.quit = false ∧
      written c.trace = [[3], []] ∧
      (define_test [[1], [2], [3]]).pdu_list.length = 4 ∧
      enabled c (event.watch 1 G_IO_IN (read_ret.got [2, 0, 2])) = true ∧
      dispatch c (event.watch 1 G_IO_IN (read_ret.got [2, 0, 2])) = .error .out_of_range) :=
  ⟨⟨_, rfl, rfl, rfl⟩, ⟨_, rfl, rfl, rfl, rfl, rfl, rfl, rfl, rfl, rfl⟩⟩

theorem define_test_in_range (vs : List (List Nat)) (i : Nat) (h : i ≤ vs.length) :
    ∃ pdu, (define_test vs).pdu_list[i]? = some pdu := by
  have : i < (define_test vs).pdu_list.length := by
    rw [define_test_length]; omega
  exact ⟨_, List.getElem?_eq_getElem this⟩

/-- C8, amended. In every state reached from a freshly created context by
harness events among which a readable notification is handled only while no
deferred send is attached, the cursor is at most `len(vectors) + 1`, and at
most `len(vectors)` as long as the watch is attached (no error, hangup or
invalid notification was handled); every `pdu_list[pdu_offset]` formed so far
by `test_handler`, `send_pdu` or `context_process` lies inside the script
array, sentinel included, and so does every fetch of the next event. -/
theorem cursor_in_script (vs : List (List Nat)) (n : Nat) (sv1 : Int) (es : List event)
    (c : context) (h : run one_at_a_time (create_context n sv1 (define_test vs)) es = some c) :
    c.pdu_offset ≤ vs.length + 1 ∧
    (c.main_loop.watches ≠ [] → c.pdu_offset ≤ vs.length) ∧
    (∀ i, action.fetch i ∈ c.trace → i < (define_test vs).pdu_list.length) ∧
    (∀ e, one_at_a_time c e = true → dispatch c e ≠ .error .out_of_range) := by
  have hI := harness_inv_run vs n sv1 es c h
  have hcur := hI.cursor
  refine ⟨?_, ?_, ?_, ?_⟩
  · split at hcur <;> split at hcur <;> omega
  · intro hne
    rw [if_neg hne] at hcur
    split at hcur <;> omega
  · intro i hi
    rw [define_test_length]
    have := hI.fetches i hi
    omega
  · intro e hg
    cases e with
    | watch id cond r =>
      simp only [one_at_a_time, enabled, Bool.and_eq_true, Bool.not_eq_true',
        decide_eq_true_eq] at hg
      have hne : c.main_loop.watches ≠ [] := by
        intro h0
        rw [h0] at hg
        exact absurd hg.1.2 (by simp)
      rw [if_neg hne] at hcur
      have hle : c.pdu_offset ≤ vs.length := by split at hcur <;> omega
      obtain ⟨pdu, hp⟩ := define_test_in_range vs _ hle
      rw [← hI.data] at hp
      simp only [dispatch]
      cases hc : cond_err cond with
      | true =>
        rw [test_handler_err c cond r hc]
        simp
      | false =>
        by_cases h0 : 0 < r.len
        · by_cases h1 : r.len = (pdu.size : Int)
          · by_cases h2 : r.buf.take pdu.size = pdu.data.take pdu.size
            · rw [test_handler_pass c cond r pdu hc hp h0 h1 h2]
              have hlt : c.pdu_offset < vs.length := by
                rw [hI.data] at hp
                have hs := define_test_some vs _ _ hp
                by_contra hge
                have hv : pdu.valid = false := by
                  cases hvv : pdu.valid with
                  | false => rfl
                  | true => exact absurd (hs.2.2.1.mp hvv) hge
                have := hs.2.2.2 hv
                rw [this] at h1
                simp [sentinel] at h1
                omega
              obtain ⟨c1, hc1⟩ := context_process_ok vs (after_match c r) hI.data
                (by have := incr_le c.pdu_offset; simp only [after_match]; omega)
              rw [hc1]
              simp
            · rw [test_handler_memcmp_fail c cond r pdu hc hp h0 h1 h2]
              simp
          · rw [test_handler_len_fail c cond r pdu hc hp h0 h1]
            simp
        · rw [test_handler_read_fail c cond r hc (by omega)]
          simp
    | idle id wret =>
      simp only [one_at_a_time, enabled, Bool.and_eq_true, Bool.not_eq_true',
        decide_eq_true_eq, and_true] at hg
      have hne : c.main_loop.idles ≠ [] := by
        intro h0
        rw [h0] at hg
        exact absurd hg.2 (by simp)
      rw [if_neg hne] at hcur
      have hle : c.pdu_offset ≤ vs.length := by split at hcur <;> omega
      obtain ⟨pdu, hp⟩ := define_test_in_range vs _ hle
      rw [← hI.data] at hp
      simp only [dispatch]
      rw [send_pdu_some c wret pdu hp]
      by_cases hw : wret = (pdu.size : Int)
      · rw [if_neg (not_not.mpr hw)]
        simp
      · rw [if_pos hw]
        simp
    | completion s =>
      cases s <;> simp [dispatch, primary_cb]

/-- Witness of C8 (amended): the two-vector script after a match, the deferred
send and a hangup. -/
theorem cursor_in_script_witness :
    ∃ c, run one_at_a_time (create_context 0 4 (define_test [[1], [2]]))
          [event.watch 1 G_IO_IN (read_ret.got [1]), event.idle 2 1,
            event.watch 1 G_IO_HUP read_ret.failed] = some c ∧
      c.pdu_offset ≤ [[1], [2]].length + 1 :=
  ⟨_, rfl,
    (cursor_in_script [[1], [2]] 0 4
      [event.watch 1 G_IO_IN (read_ret.got [1]), event.idle 2 1,
        event.watch 1 G_IO_HUP read_ret.failed] _ rfl).1⟩

theorem execute_context_inv (g : context → event → Bool) (c c2 : context) (es : List event)
    (h : execute_context g c es = some c2) :
    ∃ c1, run g c es = some c1 ∧ c1.main_loop.quit = true ∧ c2 = destroy_context c1 := by
  unfold execute_context at h
  cases hr : run g c es with
  | none => rw [hr] at h; cases h
  | some c1 =>
    rw [hr] at h
    cases hq : c1.main_loop.quit with
    | false => simp [hq] at h
    | true =>
      simp only [hq, if_true] at h
      cases h
      exact ⟨c1, rfl, hq, rfl⟩

/-- C9, counterexample. On a three-vector script three readable notifications
in a row end the run by the sentinel, and after `execute_context` the watch
is gone but the first deferred send is still attached. And when a hangup has
removed the watch while a send is scheduled, the loop has not been stopped,
and `destroy_context` in that state would leave the send attached. -/
theorem send_survives_teardown :
    (∃ c, execute_context enabled (create_context 0 4 (define_test [[1], [2], [3]]))
          [event.watch 1 G_IO_IN (read_ret.got [1]), event.watch 1 G_IO_IN (read_ret.got [2]),
            event.watch 1 G_IO_IN (read_ret.got [3])] = some c ∧
      c.pdu_offset = 3 ∧ c.main_loop.watches = [] ∧ c.main_loop.idles = [2]) ∧
    (∃ c, run one_at_a_time (create_context 0 4 (define_test [[1], [2]]))
          [event.watch 1 G_IO_IN (read_ret.got [1]), event.watch 1 G_IO_HUP read_ret.failed]
        = some c ∧
      c.main_loop.watches = [] ∧ c.main_loop.quit = false ∧
      (destroy_context c).main_loop.idles = [2]) :=
  ⟨⟨_, rfl, rfl, rfl, rfl⟩, ⟨_, rfl, rfl, rfl, rfl⟩⟩

/-- C9, amended. A run ends when the loop has been stopped, by the sentinel
or by the completion callback, possibly after an error notification removed
the watch. For every run in which a readable notification is handled only
while no deferred send is attached, after `execute_context` no watch and no
deferred send is attached, and every `g_source_remove` issued by
`context_quit` and `destroy_context` hit a source that was attached at that
moment (none had been removed or had fired before). -/
theorem teardown_releases_all (vs : List (List Nat)) (n : Nat) (sv1 : Int) (es : List event)
    (c : context)
    (h : execute_context one_at_a_time (create_context n sv1 (define_test vs)) es = some c) :
    c.main_loop.watches = [] ∧ c.main_loop.idles = [] ∧
    ∀ id, action.source_remove id false ∉ c.trace := by
  obtain ⟨c1, hr, hq, rfl⟩ := execute_context_inv _ _ _ _ h
  have hI := harness_inv_run vs n sv1 es c1 hr
  have hid : c1.main_loop.idles = [] := by
    rcases hI.idles with ⟨h1, -⟩ | ⟨h1, -⟩
    · exact h1
    · rw [hq] at h1; cases h1
  rcases hI.watch with ⟨hs, hw⟩ | ⟨hs, hw⟩
  · have hd : destroy_context c1 = c1 := by
      simp [destroy_context, hs]
    rw [hd]
    exact ⟨hw, hid, hI.removes⟩
  · have hd : destroy_context c1 =
        { c1 with main_loop := g_source_remove c1.main_loop c1.source,
                  trace := c1.trace ++ [action.source_remove c1.source true] } := by
      simp [destroy_context, hs, attached, hw]
    rw [hd]
    refine ⟨?_, ?_, ?_⟩
    · simp [g_source_remove, hw]
    · simp [g_source_remove, hid]
    · intro id hmem
      simp only [List.mem_append, List.mem_singleton, action.source_remove.injEq,
        Bool.false_eq_true, and_false, or_false] at hmem
      exact hI.removes id hmem

/-- Witness of C9 (amended): `/TP/GAC/CL/BV-01-C` ended by the sentinel, and
a two-vector run ended by the completion callback while a send is scheduled. -/
theorem teardown_releases_all_witness :
    (∃ c, execute_context one_at_a_time (create_context 0 4 (define_test [[2, 0, 2]]))
          [event.watch 1 G_IO_IN (read_ret.got [2, 0, 2])] = some c ∧
      c.main_loop.watches = [] ∧ c.main_loop.idles = [] ∧
      c.trace = [action.fetch 0, action.read 4, action.matched [2, 0, 2], action.fetch 1,
        action.loop_quit, action.source_remove 1 true]) ∧
    (∃ c, execute_context one_at_a_time
          (create_context 0 4 (define_test [[2, 0, 2], [3, 0, 2]]))
          [event.watch 1 G_IO_IN (read_ret.got [2, 0, 2]), event.completion true] = some c ∧
      c.main_loop.watches = [] ∧ c.main_loop.idles = [] ∧
      ∀ id, action.source_remove id false ∉ c.trace) :=
  ⟨⟨_, rfl, rfl, rfl, rfl⟩,
    ⟨_, rfl,
      teardown_releases_all [[2, 0, 2], [3, 0, 2]] 0 4
        [event.watch 1 G_IO_IN (read_ret.got [2, 0, 2]), event.completion true] _ rfl⟩⟩

/-- C5, counterexample. On the two-vector script a match followed by the
completion callback reporting success stops the loop without any assertion at
cursor 1, short of the sentinel index 2, the scripted send never written; and
on a three-vector script three matches in a row stop the loop at the sentinel
with a deferred send still attached. -/
theorem passing_run_off_sentinel :
    (∃ c, run enabled (create_context 0 4 (define_test [[2, 0, 2], [3, 0, 2]]))
          [event.watch 1 G_IO_IN (read_ret.got [2, 0, 2]), event.completion true] = some c ∧
      c.main_loop.quit = true ∧ c.pdu_offset = 1 ∧ [[2, 0, 2], [3, 0, 2]].length = 2 ∧
      written c.trace = []) ∧
    (∃ c, run enabled (create_context 0 4 (define_test [[1], [2], [3]]))
          [event.watch 1 G_IO_IN (read_ret.got [1]), event.watch 1 G_IO_IN (read_ret.got [2]),
            event.watch 1 G_IO_IN (read_ret.got [3])] = some c ∧
      c.main_loop.quit = true ∧ c.main_loop.idles = [2]) :=
  ⟨⟨_, rfl, rfl, rfl, rfl, rfl⟩, ⟨_, rfl, rfl, rfl⟩⟩

/-- C5, amended. For every run in which a readable notification is handled
only while no deferred send is attached and that ends, without a failed
assertion, with the loop stopped by its last event: no deferred send is
attached; the last event is a readable notification or the completion
callback; when it is a readable notification (the sentinel was reached) the
cursor equals `len(vectors)`; when it is the completion callback the cursor
is where the run stood before it, which `primary_cb` does not inspect. -/
theorem stopped_run_end (vs : List (List Nat)) (n : Nat) (sv1 : Int) (es : List event)
    (e : event) (c : context)
    (h : run one_at_a_time (create_context n sv1 (define_test vs)) (es ++ [e]) = some c)
    (hq : c.main_loop.quit = true) :
    c.main_loop.idles = [] ∧
    (∀ id wret, e ≠ event.idle id wret) ∧
    (∀ id cond r, e = event.watch id cond r → cond_err cond = false ∧ c.pdu_offset = vs.length) ∧
    (∀ s, e = event.completion s → s = true ∧
      ∃ c1, run one_at_a_time (create_context n sv1 (define_test vs)) es = some c1 ∧
        c1.main_loop.quit = false ∧ c.pdu_offset = c1.pdu_offset) := by
  have hI := harness_inv_run vs n sv1 (es ++ [e]) c h
  obtain ⟨c1, hr, hg, hd⟩ := run_append_inv one_at_a_time es e _ c h
  have hI1 := harness_inv_run vs n sv1 es c1 hr
  have hq1 : c1.main_loop.quit = false :=
    enabled_running c1 e (one_at_a_time_enabled c1 e hg)
  have hid : c.main_loop.idles = [] := by
    rcases hI.idles with ⟨h1, -⟩ | ⟨h1, -⟩
    · exact h1
    · rw [hq] at h1; cases h1
  refine ⟨hid, ?_⟩
  rcases dispatch_cases c1 c e hd with
    ⟨id, cond, r, rfl, hc, rfl⟩ | ⟨id, cond, r, pdu, nxt, rfl, hc, hp, hsz, -, -, hn, hv, rfl⟩ |
    ⟨id, cond, r, pdu, nxt, rfl, hc, hp, hsz, -, -, hn, hv, rfl⟩ |
    ⟨id, wret, pdu, rfl, hp, hw, rfl⟩ | ⟨rfl, rfl⟩
  · simp [g_source_remove, hq1] at hq
  · refine ⟨fun _ _ hh => (nomatch hh), ?_, fun _ hh => (nomatch hh)⟩
    intro id2 cond2 r2 heq
    cases heq
    refine ⟨hc, ?_⟩
    rw [hI1.data] at hn
    have hs := define_test_some vs _ _ hn
    have : ¬ incr c1.pdu_offset < vs.length := by
      intro hlt
      have := hs.2.2.1.mpr hlt
      rw [hv] at this
      cases this
    show incr c1.pdu_offset = vs.length
    omega
  · simp [g_idle_add, hq1] at hq
  · simp [g_source_remove, hq1] at hq
  · refine ⟨fun _ _ hh => (nomatch hh), fun _ _ _ hh => (nomatch hh), ?_⟩
    intro s hs
    cases hs
    exact ⟨rfl, c1, hr, hq1, rfl⟩

/-- Witness of C5 (amended): `/TP/GAC/CL/BV-01-C` stopped by the sentinel. -/
theorem stopped_run_end_witness :
    ∃ c, run one_at_a_time (create_context 0 4 (define_test [[2, 0, 2]]))
          ([] ++ [event.watch 1 G_IO_IN (read_ret.got [2, 0, 2])]) = some c ∧
      c.main_loop.quit = true ∧ c.main_loop.idles = [] ∧ c.pdu_offset = [[2, 0, 2]].length :=
  ⟨_, rfl, rfl,
    (stopped_run_end [[2, 0, 2]] 0 4 [] (event.watch 1 G_IO_IN (read_ret.got [2, 0, 2])) _
      rfl rfl).1,
    ((stopped_run_end [[2, 0, 2]] 0 4 [] (event.watch 1 G_IO_IN (read_ret.got [2, 0, 2])) _
      rfl rfl).2.2.1 1 G_IO_IN (read_ret.got [2, 0, 2]) rfl).2⟩

theorem script_actions_append (fd : Int) (l : List (List Nat)) (v : List Nat) :
    ∀ k, script_actions fd k (l ++ [v])
      = script_actions fd k l ++ [script_action fd (k + l.length) v] := by
  induction l with
  | nil => intro k; simp [script_actions]
  | cons a l ih =>
    intro k
    have h1 := ih (k + 1)
    rw [show k + 1 + l.length = k + (l.length + 1) by omega] at h1
    show script_action fd k a :: script_actions fd (k + 1) (l ++ [v]) = _
    rw [h1]
    rfl

theorem matched_script_actions (fd : Int) (l : List (List Nat)) :
    ∀ k, matched_msgs (script_actions fd k l) = pick k l := by
  induction l with
  | nil => intro k; rfl
  | cons a l ih =>
    intro k
    have := ih (k + 1)
    unfold matched_msgs at this ⊢
    by_cases hk : k % 2 = 0 <;>
      simp [script_actions, script_action, pick, hk, action.matched_bytes, this]

theorem written_script_actions (fd : Int) (l : List (List Nat)) :
    ∀ k, written (script_actions fd k l) = pick (k + 1) l := by
  induction l with
  | nil => intro k; rfl
  | cons a l ih =>
    intro k
    have := ih (k + 1)
    unfold written at this ⊢
    by_cases hk : k % 2 = 0
    · have hk1 : ¬ (k + 1) % 2 = 0 := by omega
      simp [script_actions, script_action, pick, hk, hk1, action.write_bytes, this]
    · have hk1 : (k + 1) % 2 = 0 := by omega
      simp [script_actions, script_action, pick, hk, hk1, action.write_bytes, this]

theorem matched_exchanges (t : List action) : matched_msgs (exchanges t) = matched_msgs t := by
  induction t with
  | nil => rfl
  | cons a t ih =>
    unfold matched_msgs exchanges at ih ⊢
    cases a <;> simp [List.filter_cons, action.is_exchange, action.matched_bytes, ih]

theorem written_exchanges (t : List action) : written (exchanges t) = written t := by
  induction t with
  | nil => rfl
  | cons a t ih =>
    unfold written exchanges at ih ⊢
    cases a <;> simp [List.filter_cons, action.is_exchange, action.write_bytes, ih]

theorem define_test_vector (vs : List (List Nat)) (i : Nat) (p : test_pdu)
    (h : (define_test vs).pdu_list[i]? = some p) (hs : 0 < p.size ∨ p.valid = true) :
    ∃ hi : i < vs.length, p = raw_pdu (vs.get ⟨i, hi⟩) := by
  have h4 := define_test_some vs i p h
  have hv : p.valid = true := by
    rcases hs with hs | hs
    · cases hvv : p.valid with
      | true => rfl
      | false =>
        have := h4.2.2.2 hvv
        rw [this] at hs
        simp [sentinel] at hs
    · exact hs
  have hi := h4.2.2.1.mp hv
  refine ⟨hi, ?_⟩
  rw [define_test_lt vs i hi] at h
  cases h
  rfl

theorem take_succ_get (vs : List (List Nat)) (i : Nat) (hi : i < vs.length) :
    vs.take (i + 1) = vs.take i ++ [vs.get ⟨i, hi⟩] := by
  rw [List.take_succ]
  simp [List.getElem?_eq_getElem hi]

theorem exchange_inv_init (vs : List (List Nat)) (n : Nat) (sv1 : Int) :
    exchange_inv vs (create_context n sv1 (define_test vs)) := by
  refine ⟨harness_inv_init vs n sv1, ?_, ?_, ?_⟩ <;>
    simp [create_context, g_io_add_watch, g_main_loop_new, exchanges, script_actions]

theorem buf_eq_vector (vs : List (List Nat)) (i : Nat) (hi : i < vs.length) (buf : List Nat)
    (h2 : buf.take (raw_pdu (vs.get ⟨i, hi⟩)).size
      = (raw_pdu (vs.get ⟨i, hi⟩)).data.take (raw_pdu (vs.get ⟨i, hi⟩)).size)
    (h3 : buf.length = (raw_pdu (vs.get ⟨i, hi⟩)).size) : buf = vs.get ⟨i, hi⟩ :=
  (take_eq_of_length _ _ _ h3 rfl).mp h2

theorem exchange_inv_step (vs : List (List Nat)) (hlen : vs.length < 2 ^ 32) (c c1 : context)
    (e : event) (hE : exchange_inv vs c) (hg : failure_free c e = true)
    (hd : dispatch c e = .ok c1) : exchange_inv vs c1 := by
  have hI1 := harness_inv_step vs c c1 e hE.base (failure_free_one_at_a_time c e hg) hd
  obtain ⟨hI, halive, hdia, hpar⟩ := hE
  have hcur := hI.cursor
  rw [if_neg halive] at hcur
  have hq : c.main_loop.quit = false :=
    enabled_running c e (one_at_a_time_enabled c e (failure_free_one_at_a_time c e hg))
  have hpar := hpar hq
  rcases dispatch_cases c c1 e hd with
    ⟨id, cond, r, rfl, hc, rfl⟩ | ⟨id, cond, r, pdu, nxt, rfl, hc, hp, hsz, h2, h3, hn, hv, rfl⟩ |
    ⟨id, cond, r, pdu, nxt, rfl, hc, hp, hsz, h2, h3, hn, hv, rfl⟩ |
    ⟨id, wret, pdu, rfl, hp, hw, rfl⟩ | ⟨rfl, rfl⟩
  · simp [failure_free, hc] at hg
  · simp only [failure_free, enabled, Bool.and_eq_true, Bool.not_eq_true', decide_eq_true_eq,
      hc, List.isEmpty_iff] at hg
    have hnil := hg.2.2
    have hev := hpar.mp hnil
    rw [hI.data] at hp
    obtain ⟨hi, rfl⟩ := define_test_vector vs _ _ hp (Or.inl hsz)
    have hbuf := buf_eq_vector vs _ hi r.buf h2 h3
    have hinc : incr c.pdu_offset = c.pdu_offset + 1 := incr_eq _ (by omega)
    refine ⟨hI1, ?_, ?_, ?_⟩
    · by_cases hpz : c.process > 0
      · have := hI.distinct
        simp only [hpz, if_true, g_main_loop_quit, g_source_remove]
        rw [filter_ne_of_not_mem _ _ this]
        exact halive
      · simp only [hpz, if_false, g_main_loop_quit]
        exact halive
    · simp only [hinc]
      rw [take_succ_get vs _ hi, script_actions_append, ← hdia]
      have hl : (List.take c.pdu_offset vs).length = c.pdu_offset := by
        rw [List.length_take]; omega
      rw [hl, hbuf]
      by_cases hpz : c.process > 0 <;>
        simp [exchanges, List.filter_append, action.is_exchange, script_action, hev, hpz]
    · intro hq2
      by_cases hpz : c.process > 0 <;> simp [hpz, g_main_loop_quit] at hq2
  · simp only [failure_free, enabled, Bool.and_eq_true, Bool.not_eq_true', decide_eq_true_eq,
      hc, List.isEmpty_iff] at hg
    have hnil := hg.2.2
    have hev := hpar.mp hnil
    rw [hI.data] at hp
    obtain ⟨hi, rfl⟩ := define_test_vector vs _ _ hp (Or.inl hsz)
    have hbuf := buf_eq_vector vs _ hi r.buf h2 h3
    have hinc : incr c.pdu_offset = c.pdu_offset + 1 := incr_eq _ (by omega)
    refine ⟨hI1, ?_, ?_, ?_⟩
    · simpa [g_idle_add] using halive
    · simp only [hinc]
      rw [take_succ_get vs _ hi, script_actions_append, ← hdia]
      have hl : (List.take c.pdu_offset vs).length = c.pdu_offset := by
        rw [List.length_take]; omega
      rw [hl, hbuf]
      simp [exchanges, List.filter_append, action.is_exchange, script_action, hev]
    · intro _
      simp only [hinc, g_idle_add, hnil, List.nil_append]
      constructor
      · intro hh; cases hh
      · intro hh; omega
  · simp only [failure_free, enabled, Bool.and_eq_true, Bool.not_eq_true', decide_eq_true_eq,
      and_true] at hg
    have hne : c.main_loop.idles ≠ [] := by
      intro h0
      rw [h0] at hg
      exact absurd hg.2 (by simp)
    rw [if_neg hne] at hcur
    have hodd : ¬ c.pdu_offset % 2 = 0 := fun hh => hne (hpar.mpr hh)
    rw [hI.data] at hp
    have hlt : c.pdu_offset < vs.length := by omega
    rw [define_test_lt vs _ hlt] at hp
    cases hp
    have hinc : incr c.pdu_offset = c.pdu_offset + 1 := incr_eq _ (by omega)
    have hpr : c.main_loop.idles = [c.process] := by
      rcases hI.idles with ⟨h, -⟩ | ⟨-, -, h⟩
      · exact absurd h hne
      · exact h
    have hid : id = c.process := by
      have := hg.2
      rw [hpr] at this
      simpa using this
    subst hid
    refine ⟨hI1, ?_, ?_, ?_⟩
    · show (g_source_remove c.main_loop c.process).watches ≠ []
      simp only [g_source_remove]
      rw [filter_ne_of_not_mem _ _ hI.distinct]
      exact halive
    · simp only [hinc]
      rw [take_succ_get vs _ hlt, script_actions_append, ← hdia]
      have hl : (List.take c.pdu_offset vs).length = c.pdu_offset := by
        rw [List.length_take]; omega
      rw [hl]
      simp [exchanges, List.filter_append, action.is_exchange, script_action, hodd, raw_pdu]
    · intro _
      simp only [hinc, g_source_remove, hpr]
      constructor
      · intro _; omega
      · intro _; simp
  · refine ⟨hI1, ?_, ?_, ?_⟩
    · by_cases hpz : c.process > 0
      · have := hI.distinct
        simp only [hpz, if_true, g_main_loop_quit, g_source_remove]
        rw [filter_ne_of_not_mem _ _ this]
        exact halive
      · simp only [hpz, if_false, g_main_loop_quit]
        exact halive
    · rw [← hdia]
      by_cases hpz : c.process > 0 <;>
        simp [exchanges, List.filter_append, action.is_exchange, hpz]
    · intro hq2
      by_cases hpz : c.process > 0 <;> simp [hpz, g_main_loop_quit] at hq2

theorem exchange_inv_run (vs : List (List Nat)) (hlen : vs.length < 2 ^ 32) (n : Nat)
    (sv1 : Int) (es : List event) (c : context)
    (h : run failure_free (create_context n sv1 (define_test vs)) es = some c) :
    exchange_inv vs c :=
  run_invariant failure_free (exchange_inv vs)
    (fun c e c1 hE hg hd => exchange_inv_step vs hlen c c1 e hE hg hd) es _ c
    (exchange_inv_init vs n sv1) h

theorem test_handler_written (c c1 : context) (cond : Nat) (r : read_ret) (keep : Bool)
    (h : test_handler c cond r = .ok (c1, keep)) : written c1.trace = written c.trace := by
  have hd : dispatch c (event.watch 0 cond r) = .ok (after_callback 0 (c1, keep)) := by
    simp [dispatch, h]
  have ht : (after_callback 0 (c1, keep)).trace = c1.trace := by
    unfold after_callback
    split <;> rfl
  rw [← ht]
  rcases dispatch_cases c _ _ hd with
    ⟨id, cond, r, -, hc, h1⟩ | ⟨id, cond, r, pdu, nxt, -, hc, hp, hsz, h2, h3, hn, hv, h1⟩ |
    ⟨id, cond, r, pdu, nxt, -, hc, hp, hsz, h2, h3, hn, hv, h1⟩ |
    ⟨id, wret, pdu, he, hp, hw, h1⟩ | ⟨he, h1⟩
  · rw [h1]; simp [written, action.write_bytes]
  · rw [h1]
    by_cases hpz : c.process > 0 <;> simp [written, action.write_bytes, hpz]
  · rw [h1]; simp [written, action.write_bytes]
  · cases he
  · cases he

/-- C2, counterexample. On the two-vector script a match followed by the
completion callback reporting success is a run without failed assertion or
error notification, one exchange at a time, that ends with the loop stopped at
cursor 1: the expect vector was matched, but nothing was written, although the
script has the send vector `03 00 02`. -/
theorem dialogue_cut_short :
    ∃ c, run failure_free (create_context 0 4 (define_test [[2, 0, 2], [3, 0, 2]]))
          [event.watch 1 G_IO_IN (read_ret.got [2, 0, 2]), event.completion true] = some c ∧
      c.main_loop.quit = true ∧ c.pdu_offset = 1 ∧
      matched_msgs c.trace = [[2, 0, 2]] ∧ written c.trace = [] ∧
      send_vectors [[2, 0, 2], [3, 0, 2]] = [[3, 0, 2]] ∧
      written c.trace ≠ send_vectors [[2, 0, 2], [3, 0, 2]] :=
  ⟨_, rfl, rfl, rfl, rfl, rfl, rfl, by decide⟩

/-- C2, amended. For every script and every run from a freshly created
context (cursor 0) without failed assertion or error notification in which a
readable notification is handled only while no deferred send is attached: the
matches and writes of the run are, in order, the dialogue of the first
`pdu_offset` vectors of the script - the vector at each even position
matched, the vector at each odd position written right after the match of the
one before it; so the matched messages are the expect vectors and the written
messages the send vectors among the first `pdu_offset` vectors, and they are
all the expect and send vectors of the script when the cursor stands at the
sentinel; and no invocation of `test_handler` performs a write. -/
theorem scripted_dialogue (vs : List (List Nat)) (hlen : vs.length < 2 ^ 32) (n : Nat)
    (sv1 : Int) (es : List event) (c : context)
    (h : run failure_free (create_context n sv1 (define_test vs)) es = some c) :
    c.pdu_offset ≤ vs.length ∧
    exchanges c.trace = script_actions c.fd 0 (vs.take c.pdu_offset) ∧
    matched_msgs c.trace = expect_vectors (vs.take c.pdu_offset) ∧
    written c.trace = send_vectors (vs.take c.pdu_offset) ∧
    (c.pdu_offset = vs.length →
      matched_msgs c.trace = expect_vectors vs ∧ written c.trace = send_vectors vs) ∧
    (∀ c0 cond r c1 keep, test_handler c0 cond r = .ok (c1, keep) →
      written c1.trace = written c0.trace) := by
  have hE := exchange_inv_run vs hlen n sv1 es c h
  have hcur := hE.base.cursor
  rw [if_neg hE.alive] at hcur
  have hle : c.pdu_offset ≤ vs.length := by split at hcur <;> omega
  have hm : matched_msgs c.trace = expect_vectors (vs.take c.pdu_offset) := by
    rw [← matched_exchanges, hE.dialogue, matched_script_actions]
    rfl
  have hw : written c.trace = send_vectors (vs.take c.pdu_offset) := by
    rw [← written_exchanges, hE.dialogue, written_script_actions]
    rfl
  refine ⟨hle, hE.dialogue, hm, hw, ?_,
    fun c0 cond r c1 keep hh => test_handler_written c0 c1 cond r keep hh⟩
  intro heq
  rw [hm, hw, heq, List.take_length]
  exact ⟨rfl, rfl⟩

/-- Witness of C2 (amended): the intended runs of `/TP/GAD/CL/BV-02-C-1` and of
`/TP/GAD/CL/BV-01-C`. -/
theorem scripted_dialogue_witness :
    (∃ c, run failure_free (create_context 0 4 (define_test gad_cl_bv_02_c_1))
          gad_cl_bv_02_c_1_events = some c ∧
      c.pdu_offset = 6 ∧ c.main_loop.quit = true ∧
      matched_msgs c.trace =
        [[0x02, 0x00, 0x02], [0x06, 0x01, 0x00, 0xff, 0xff, 0x00, 0x28, 0x00, 0x18],
          [0x06, 0x08, 0x00, 0xff, 0xff, 0x00, 0x28, 0x00, 0x18]] ∧
      written c.trace =
        [[0x03, 0x00, 0x02], [0x07, 0x01, 0x00, 0x07, 0x00], [0x01, 0x06, 0x08, 0x00, 0x0a]] ∧
      (c.pdu_offset = gad_cl_bv_02_c_1.length →
        matched_msgs c.trace = expect_vectors gad_cl_bv_02_c_1 ∧
          written c.trace = send_vectors gad_cl_bv_02_c_1)) ∧
    (∃ c, run failure_free (create_context 0 4 (define_test gad_cl_bv_01_c))
          gad_cl_bv_01_c_events = some c ∧
      c.pdu_offset = 8 ∧ c.main_loop.quit = true ∧
      matched_msgs c.trace = expect_vectors (gad_cl_bv_01_c.take c.pdu_offset) ∧
      written c.trace = send_vectors (gad_cl_bv_01_c.take c.pdu_offset)) :=
  ⟨⟨_, rfl, rfl, rfl, rfl, rfl,
      (scripted_dialogue gad_cl_bv_02_c_1 (by decide) 0 4 gad_cl_bv_02_c_1_events _
        rfl).2.2.2.2.1⟩,
    ⟨_, rfl, rfl, rfl,
      (scripted_dialogue gad_cl_bv_01_c (by decide) 0 4 gad_cl_bv_01_c_events _ rfl).2.2.1,
      (scripted_dialogue gad_cl_bv_01_c (by decide) 0 4 gad_cl_bv_01_c_events _
        rfl).2.2.2.1⟩⟩

end TestGatt
